import Mathlib

/-!
Verification of the LSP JSON-RPC client in `src/mcp-server/src/lsp_client.rs`.

The embedding is byte-level: Rust strings and byte buffers are modelled as
`List Nat` (each element a byte value, `< 256` where it matters), so that the
`Content-Length` framing, percent-encoding and JSON serialization can be
reasoned about exactly as the code computes them.
-/

set_option maxHeartbeats 1000000
set_option maxRecDepth 4000

namespace LspMux

/-- Byte list of an ASCII string literal (used for the fixed strings the
source embeds, e.g. the framing header and JSON-RPC field names). -/
def asciiBytes (s : String) : List Nat := s.toList.map Char.toNat

/-- `is_unreserved_path_byte` from lsp_client.rs:
`b.is_ascii_alphanumeric() or one of - . _ ~ /`. -/
def is_unreserved_path_byte (b : Nat) : Bool :=
  ((0x41 ≤ b && b ≤ 0x5A) || (0x61 ≤ b && b ≤ 0x7A) || (0x30 ≤ b && b ≤ 0x39))
    || b == 0x2D || b == 0x2E || b == 0x5F || b == 0x7E || b == 0x2F

/-- `hex_upper` from lsp_client.rs: a nibble as an uppercase hex character
(returned as its byte value; the catch-all arm of the source returns `?`,
byte 0x3F). -/
def hex_upper (nibble : Nat) : Nat :=
  if nibble ≤ 9 then 0x30 + nibble
  else if nibble ≤ 15 then 0x41 + (nibble - 10)
  else 0x3F

/-- `hex_value` from lsp_client.rs: hex character (byte) to its value. -/
def hex_value (b : Nat) : Option Nat :=
  if 0x30 ≤ b && b ≤ 0x39 then some (b - 0x30)
  else if 0x61 ≤ b && b ≤ 0x66 then some (b - 0x61 + 10)
  else if 0x41 ≤ b && b ≤ 0x46 then some (b - 0x41 + 10)
  else none

/-- `percent_encode_path` from lsp_client.rs: each unreserved byte is kept,
every other byte becomes `%` plus two uppercase hex digits
(`b >> 4` is `b / 16`, `b & 0x0f` is `b % 16`). -/
def percent_encode_path (path : List Nat) : List Nat :=
  path.flatMap fun b =>
    if is_unreserved_path_byte b then [b]
    else [0x25, hex_upper (b / 16), hex_upper (b % 16)]

/-- `percent_decode_path` from lsp_client.rs. A `%` must be followed by two
valid hex digits; any other byte passes through. The source's final
`String::from_utf8` step is dropped because the model stays at byte level. -/
def percent_decode_path : List Nat → Option (List Nat)
  | [] => some []
  | b :: rest =>
    if b = 0x25 then
      match rest with
      | hi :: lo :: rest2 =>
        (hex_value hi).bind fun h =>
          (hex_value lo).bind fun l =>
            (percent_decode_path rest2).map fun d => (h * 16 + l) :: d
      | _ => none
    else (percent_decode_path rest).map fun d => b :: d

/-- `std::path::Path::is_absolute` on Unix: the path starts with `/`. -/
def isAbsolutePath (path : List Nat) : Bool :=
  match path with
  | 0x2F :: _ => true
  | _ => false

/-- `file_uri` from lsp_client.rs: reject non-absolute paths, otherwise
prepend the scheme to the percent-encoded path. The final `Uri` parse of the
source always succeeds on this output (it contains only unreserved bytes and
percent escapes), so it is modelled as the identity on the string. -/
def file_uri (path : List Nat) : Except String (List Nat) :=
  if isAbsolutePath path then .ok (asciiBytes "file://" ++ percent_encode_path path)
  else .error "invalid absolute file path for URI"

/-- Rust `str::strip_prefix`: remainder of the second list after the first,
if the first is a prefix of it. -/
def dropLeading : List Nat → List Nat → Option (List Nat)
  | [], l => some l
  | _ :: _, [] => none
  | p :: ps, b :: bs => if b = p then dropLeading ps bs else none

/-- `uri_to_path` from lsp_client.rs: strip the scheme if present, then
percent-decode, falling back to the undecoded remainder on decode failure. -/
def uri_to_path (uri : List Nat) : List Nat :=
  let path := (dropLeading (asciiBytes "file://") uri).getD uri
  (percent_decode_path path).getD path

/-- Last component of a path (`Path::file_name` portion after the last `/`). -/
def lastComponent (path : List Nat) : List Nat :=
  ((path.reverse).takeWhile fun b => b ≠ 0x2F).reverse

/-- `Path::extension`: the part of the file name after the last dot; `none`
if there is no dot, or the only dot starts the name (hidden files). -/
def extensionOf (name : List Nat) : Option (List Nat) :=
  let tail := (name.reverse).takeWhile fun b => b ≠ 0x2E
  if tail.length = name.length then none
  else if name.length - tail.length - 1 = 0 then none
  else some tail.reverse

/-- Rust `to_ascii_lowercase` at byte level. -/
def toAsciiLower (l : List Nat) : List Nat :=
  l.map fun b => if 0x41 ≤ b && b ≤ 0x5A then b + 0x20 else b

/-- `detect_language_id` from lsp_client.rs: extension (lowercased,
defaulting to the empty string) to LSP languageId, falling back to
`plaintext`. -/
def detect_language_id (path : List Nat) : List Nat :=
  let ext := toAsciiLower ((extensionOf (lastComponent path)).getD [])
  if ext = asciiBytes "rs" then asciiBytes "rust"
  else if ext = asciiBytes "toml" then asciiBytes "toml"
  else if ext = asciiBytes "json" then asciiBytes "json"
  else if ext = asciiBytes "yaml" || ext = asciiBytes "yml" then asciiBytes "yaml"
  else if ext = asciiBytes "md" || ext = asciiBytes "markdown" then asciiBytes "markdown"
  else if ext = asciiBytes "py" then asciiBytes "python"
  else if ext = asciiBytes "js" then asciiBytes "javascript"
  else if ext = asciiBytes "ts" then asciiBytes "typescript"
  else if ext = asciiBytes "jsx" then asciiBytes "javascriptreact"
  else if ext = asciiBytes "tsx" then asciiBytes "typescriptreact"
  else if ext = asciiBytes "c" then asciiBytes "c"
  else if ext = asciiBytes "cpp" || ext = asciiBytes "cc" || ext = asciiBytes "cxx"
      || ext = asciiBytes "h" || ext = asciiBytes "hpp" then asciiBytes "cpp"
  else if ext = asciiBytes "go" then asciiBytes "go"
  else if ext = asciiBytes "rb" then asciiBytes "ruby"
  else if ext = asciiBytes "sh" || ext = asciiBytes "bash" || ext = asciiBytes "zsh" then
    asciiBytes "shellscript"
  else if ext = asciiBytes "css" then asciiBytes "css"
  else if ext = asciiBytes "html" || ext = asciiBytes "htm" then asciiBytes "html"
  else if ext = asciiBytes "xml" then asciiBytes "xml"
  else if ext = asciiBytes "sql" then asciiBytes "sql"
  else if ext = asciiBytes "nix" then asciiBytes "nix"
  else asciiBytes "plaintext"

/-! ## JSON model

`serde_json::Value` restricted to what the client exchanges: no floating
point numbers (the client only ever builds integer ids/versions). Object
fields are kept in serialization order; string contents are raw UTF-8
bytes. -/

inductive Json where
  | null : Json
  | bool (b : Bool) : Json
  | num (n : Int) : Json
  | str (s : List Nat) : Json
  | arr (elems : List Json) : Json
  | obj (fields : List (List Nat × Json)) : Json

/-- Big-endian decimal digits of a positive number, accumulator style.
The explicit fuel (always instantiated with `n` itself, which is enough
since the value shrinks by a factor of ten per digit) keeps the recursion
structural so that terms reduce definitionally. -/
def natDigitsF : Nat → Nat → List Nat → List Nat
  | 0, _, acc => acc
  | fuel + 1, n, acc =>
    if n = 0 then acc else natDigitsF fuel (n / 10) ((0x30 + n % 10) :: acc)

/-- Decimal rendering of a `Nat` (as `itoa` in Rust formatting). -/
def natDecimal (n : Nat) : List Nat :=
  if n = 0 then [0x30] else natDigitsF n n []

/-- Decimal rendering of an `Int` (minus sign for negatives). -/
def intDecimal (n : Int) : List Nat :=
  if n < 0 then 0x2D :: natDecimal (-n).toNat else natDecimal n.toNat

/-- Lowercase hex digit byte for a nibble (serde_json uses lowercase in
its control-character escapes). -/
def hexLower (nibble : Nat) : Nat :=
  if nibble ≤ 9 then 0x30 + nibble else 0x61 + (nibble - 10)

/-- serde_json string escaping, per byte: quote and backslash are escaped,
control bytes below 0x20 get their short escape or a `\u00XX` escape,
everything else passes through (UTF-8 continuation bytes included). -/
def escapeByte (b : Nat) : List Nat :=
  if b = 0x22 then [0x5C, 0x22]
  else if b = 0x5C then [0x5C, 0x5C]
  else if b = 0x08 then [0x5C, 0x62]
  else if b = 0x09 then [0x5C, 0x74]
  else if b = 0x0A then [0x5C, 0x6E]
  else if b = 0x0C then [0x5C, 0x66]
  else if b = 0x0D then [0x5C, 0x72]
  else if b < 0x20 then [0x5C, 0x75, 0x30, 0x30, hexLower (b / 16), hexLower (b % 16)]
  else [b]

/-- A JSON string literal: quote, escaped content, quote. -/
def renderString (s : List Nat) : List Nat :=
  0x22 :: (s.flatMap escapeByte ++ [0x22])

mutual
/-- `serde_json::to_string` (compact form, no whitespace), at byte level. -/
def render : Json → List Nat
  | .null => asciiBytes "null"
  | .bool true => asciiBytes "true"
  | .bool false => asciiBytes "false"
  | .num n => intDecimal n
  | .str s => renderString s
  | .arr xs => 0x5B :: (renderElems xs ++ [0x5D])
  | .obj kvs => 0x7B :: (renderFields kvs ++ [0x7D])

/-- Comma-separated renderings of array elements. -/
def renderElems : List Json → List Nat
  | [] => []
  | [x] => render x
  | x :: xs => render x ++ 0x2C :: renderElems xs

/-- Comma-separated `key:value` renderings of object fields. -/
def renderFields : List (List Nat × Json) → List Nat
  | [] => []
  | [kv] => renderString kv.1 ++ 0x3A :: render kv.2
  | kv :: kvs => renderString kv.1 ++ 0x3A :: render kv.2 ++ 0x2C :: renderFields kvs
end

/-! ## JSON parser

Models `serde_json::from_slice` on the message bodies this client exchanges:
compact JSON with integer numbers. Deliberate restrictions of the model,
none of which is exercised by the claims: interior whitespace is not
skipped, fraction/exponent forms are rejected rather than parsed as floats,
and `\uXXXX` escapes are only accepted below 0x80 (serde would decode the
full code point to UTF-8). -/

/-- ASCII decimal digit test. -/
def isDigitByte (b : Nat) : Bool := 0x30 ≤ b && b ≤ 0x39

/-- Consume a maximal run of digits, accumulating their value. -/
def parseNatLoop (acc : Nat) : List Nat → Nat × List Nat
  | [] => (acc, [])
  | b :: rest =>
    if isDigitByte b then parseNatLoop (acc * 10 + (b - 0x30)) rest
    else (acc, b :: rest)

/-- Unsigned number body: requires a leading digit, rejects redundant
leading zeros and any fraction/exponent continuation. -/
def parseNumBody (input : List Nat) : Option (Nat × List Nat) :=
  match input with
  | [] => none
  | b :: rest =>
    if isDigitByte b then
      if b = 0x30 && (rest.head?.map isDigitByte).getD false then none
      else
        let p := parseNatLoop (b - 0x30) rest
        match p.2.head? with
        | some c => if c = 0x2E || c = 0x65 || c = 0x45 then none else some p
        | none => some p
    else none

/-- A JSON number: optional minus sign, then an unsigned body. -/
def parseNumber (input : List Nat) : Option (Json × List Nat) :=
  match input with
  | [] => none
  | b :: rest =>
    if b = 0x2D then (parseNumBody rest).map fun p => (Json.num (-(p.1 : Int)), p.2)
    else (parseNumBody input).map fun p => (Json.num (p.1 : Int), p.2)

/-- Single-character string escapes accepted by JSON. -/
def unescapeChar (e : Nat) : Option Nat :=
  if e = 0x22 then some 0x22
  else if e = 0x5C then some 0x5C
  else if e = 0x2F then some 0x2F
  else if e = 0x62 then some 0x08
  else if e = 0x74 then some 0x09
  else if e = 0x6E then some 0x0A
  else if e = 0x66 then some 0x0C
  else if e = 0x72 then some 0x0D
  else none

/-- String body after the opening quote: bytes up to the closing quote,
with escapes decoded. -/
def parseStringBody : List Nat → Option (List Nat × List Nat)
  | [] => none
  | b :: rest =>
    if b = 0x22 then some ([], rest)
    else if b = 0x5C then
      match rest with
      | [] => none
      | e :: rest2 =>
        if e = 0x75 then
          match rest2 with
          | h1 :: h2 :: h3 :: h4 :: rest3 =>
            match hex_value h1, hex_value h2, hex_value h3, hex_value h4 with
            | some v1, some v2, some v3, some v4 =>
              let cp := ((v1 * 16 + v2) * 16 + v3) * 16 + v4
              if cp < 0x80 then (parseStringBody rest3).map fun p => (cp :: p.1, p.2)
              else none
            | _, _, _, _ => none
          | _ => none
        else
          match unescapeChar e with
          | some c => (parseStringBody rest2).map fun p => (c :: p.1, p.2)
          | none => none
    else (parseStringBody rest).map fun p => (b :: p.1, p.2)

mutual
/-- One JSON value; `fuel` bounds the nesting the parser will follow. -/
def parseValue : Nat → List Nat → Option (Json × List Nat)
  | 0, _ => none
  | fuel + 1, input =>
    match input with
    | [] => none
    | b :: rest =>
      if b = 0x6E then (dropLeading (asciiBytes "ull") rest).map fun r => (Json.null, r)
      else if b = 0x74 then (dropLeading (asciiBytes "rue") rest).map fun r => (Json.bool true, r)
      else if b = 0x66 then
        (dropLeading (asciiBytes "alse") rest).map fun r => (Json.bool false, r)
      else if b = 0x22 then (parseStringBody rest).map fun p => (Json.str p.1, p.2)
      else if b = 0x5B then
        if rest.head? = some 0x5D then some (.arr [], rest.tail)
        else (parseElemsNE fuel rest).map fun p => (Json.arr p.1, p.2)
      else if b = 0x7B then
        if rest.head? = some 0x7D then some (.obj [], rest.tail)
        else (parseFieldsNE fuel rest).map fun p => (Json.obj p.1, p.2)
      else parseNumber input

/-- Nonempty comma-separated element list, up to and including `]`. -/
def parseElemsNE : Nat → List Nat → Option (List Json × List Nat)
  | 0, _ => none
  | fuel + 1, input =>
    (parseValue fuel input).bind fun p =>
      match p.2 with
      | [] => none
      | c :: r2 =>
        if c = 0x2C then (parseElemsNE fuel r2).map fun q => (p.1 :: q.1, q.2)
        else if c = 0x5D then some ([p.1], r2)
        else none

/-- Nonempty comma-separated field list, up to and including the closing
brace. -/
def parseFieldsNE : Nat → List Nat → Option (List (List Nat × Json) × List Nat)
  | 0, _ => none
  | fuel + 1, input =>
    match input with
    | [] => none
    | b :: rest =>
      if b = 0x22 then
        (parseStringBody rest).bind fun kp =>
          match kp.2 with
          | [] => none
          | c :: r3 =>
            if c = 0x3A then
              (parseValue fuel r3).bind fun vp =>
                match vp.2 with
                | [] => none
                | d :: r5 =>
                  if d = 0x2C then
                    (parseFieldsNE fuel r5).map fun q => ((kp.1, vp.1) :: q.1, q.2)
                  else if d = 0x7D then some ([(kp.1, vp.1)], r5)
                  else none
            else none
      else none
end

mutual
/-- Fuel needed by `parseValue` to parse a rendered value. -/
def jsonSize : Json → Nat
  | .null => 1
  | .bool _ => 1
  | .num _ => 1
  | .str _ => 1
  | .arr xs => 1 + elemsSize xs
  | .obj kvs => 1 + fieldsSize kvs

/-- Fuel needed by `parseElemsNE` for an element list. -/
def elemsSize : List Json → Nat
  | [] => 0
  | x :: xs => 1 + jsonSize x + elemsSize xs

/-- Fuel needed by `parseFieldsNE` for a field list. -/
def fieldsSize : List (List Nat × Json) → Nat
  | [] => 0
  | kv :: kvs => 1 + jsonSize kv.2 + fieldsSize kvs
end

/-- `serde_json::from_slice`: parse one value and require the input to be
fully consumed. -/
def parseJson (input : List Nat) : Option Json :=
  match parseValue (input.length + 1) input with
  | some (j, []) => some j
  | _ => none

/-! ## Round-trip lemmas: numbers -/

theorem dropLeading_append (p rest : List Nat) : dropLeading p (p ++ rest) = some rest := by
  induction p with
  | nil => rfl
  | cons a p ih => simp [dropLeading, ih]

theorem natDigitsF_zero (fuel : Nat) (acc : List Nat) : natDigitsF fuel 0 acc = acc := by
  cases fuel <;> simp [natDigitsF]

theorem natDigitsF_acc (fuel : Nat) :
    ∀ n acc, natDigitsF fuel n acc = natDigitsF fuel n [] ++ acc := by
  induction fuel with
  | zero => intro n acc; simp [natDigitsF]
  | succ f ih =>
    intro n acc
    by_cases h : n = 0
    · simp [natDigitsF, h]
    · simp only [natDigitsF, h, if_false]
      rw [ih (n / 10) ((0x30 + n % 10) :: acc), ih (n / 10) [0x30 + n % 10]]
      simp

theorem natDigitsF_fuel (fuel1 : Nat) :
    ∀ fuel2 n acc, n ≤ fuel1 → n ≤ fuel2 →
      natDigitsF fuel1 n acc = natDigitsF fuel2 n acc := by
  induction fuel1 with
  | zero =>
    intro fuel2 n acc h1 _
    have : n = 0 := Nat.le_zero.1 h1
    subst this
    rw [natDigitsF_zero, natDigitsF_zero]
  | succ f ih =>
    intro fuel2 n acc _ h2
    by_cases h : n = 0
    · subst h
      rw [natDigitsF_zero, natDigitsF_zero]
    · cases fuel2 with
      | zero => omega
      | succ g =>
        simp only [natDigitsF, h, if_false]
        have hlt : n / 10 < n := Nat.div_lt_self (Nat.pos_of_ne_zero h) (by decide)
        exact ih g (n / 10) _ (by omega) (by omega)

/-- One unfolding step of the digit rendering, in canonical (`fuel = n`) form. -/
theorem natDigits_step (n : Nat) (h : n ≠ 0) :
    natDigitsF n n [] = natDigitsF (n / 10) (n / 10) [] ++ [0x30 + n % 10] := by
  cases n with
  | zero => exact absurd rfl h
  | succ m =>
    have hlt : (m + 1) / 10 < m + 1 := Nat.div_lt_self (Nat.succ_pos m) (by decide)
    simp only [natDigitsF, Nat.succ_ne_zero, if_false]
    rw [natDigitsF_fuel m ((m + 1) / 10) ((m + 1) / 10) _ (by omega) (by omega)]
    rw [natDigitsF_acc]

theorem natDigits_digits (n : Nat) : ∀ b ∈ natDigitsF n n [], isDigitByte b = true := by
  induction n using Nat.strong_induction_on with
  | _ n ih =>
    by_cases h : n = 0
    · subst h; simp [natDigitsF]
    · rw [natDigits_step n h]
      intro b hb
      rcases List.mem_append.1 hb with hb | hb
      · exact ih (n / 10) (Nat.div_lt_self (Nat.pos_of_ne_zero h) (by decide)) b hb
      · have hb2 : b = 0x30 + n % 10 := by simpa using hb
        subst hb2
        simp only [isDigitByte, Bool.and_eq_true, decide_eq_true_eq]
        omega

theorem natDigits_ne_nil (n : Nat) (h : n ≠ 0) : natDigitsF n n [] ≠ [] := by
  rw [natDigits_step n h]
  simp

theorem natDigits_head_ne_zero (n : Nat) :
    n ≠ 0 → ∀ d ds, natDigitsF n n [] = d :: ds → d ≠ 0x30 := by
  induction n using Nat.strong_induction_on with
  | _ n ih =>
    intro h d ds heq
    by_cases h10 : n < 10
    · have hdiv : n / 10 = 0 := Nat.div_eq_of_lt h10
      rw [natDigits_step n h, hdiv, natDigitsF_zero] at heq
      have hmod : n % 10 = n := Nat.mod_eq_of_lt h10
      rw [hmod] at heq
      simp only [List.nil_append, List.cons.injEq] at heq
      omega
    · have hdiv : n / 10 ≠ 0 := by omega
      rw [natDigits_step n h] at heq
      obtain ⟨d2, ds2, hcons⟩ :=
        List.exists_cons_of_ne_nil (natDigits_ne_nil (n / 10) hdiv)
      rw [hcons] at heq
      simp only [List.cons_append, List.cons.injEq] at heq
      have hlt : n / 10 < n := Nat.div_lt_self (Nat.pos_of_ne_zero h) (by decide)
      exact heq.1 ▸ ih (n / 10) hlt hdiv d2 ds2 hcons

theorem foldl_natDigits (n : Nat) :
    ∀ acc, List.foldl (fun a b => a * 10 + (b - 0x30)) acc (natDigitsF n n [])
      = acc * 10 ^ (natDigitsF n n []).length + n := by
  induction n using Nat.strong_induction_on with
  | _ n ih =>
    intro acc
    by_cases h : n = 0
    · subst h; simp [natDigitsF]
    · rw [natDigits_step n h]
      rw [List.foldl_append, List.length_append]
      rw [ih (n / 10) (Nat.div_lt_self (Nat.pos_of_ne_zero h) (by decide)) acc]
      simp only [List.foldl_cons, List.foldl_nil, List.length_cons, List.length_nil]
      have hmod := Nat.div_add_mod n 10
      rw [pow_succ]
      set A := acc * 10 ^ (natDigitsF (n / 10) (n / 10) []).length with hA
      rw [← mul_assoc, ← hA]
      omega

/-- The head of a rendered `Nat` is a digit (and the list is a cons). -/
theorem natDecimal_head (n : Nat) :
    ∃ d ds, natDecimal n = d :: ds ∧ isDigitByte d = true := by
  by_cases h : n = 0
  · subst h
    exact ⟨0x30, [], rfl, by decide⟩
  · rw [natDecimal]
    simp only [h, if_false]
    obtain ⟨d, ds, hcons⟩ := List.exists_cons_of_ne_nil (natDigits_ne_nil n h)
    exact ⟨d, ds, hcons, natDigits_digits n d (hcons ▸ List.mem_cons_self d ds)⟩

/-- What may legally follow a rendered number for the parser to stop there. -/
def numStop (rest : List Nat) : Prop :=
  match rest with
  | [] => True
  | c :: _ => isDigitByte c = false ∧ c ≠ 0x2E ∧ c ≠ 0x65 ∧ c ≠ 0x45

/-- What follows a rendered value inside a rendered composite: a comma or a
closing bracket or brace (or the end of input at top level). -/
def stopOk (rest : List Nat) : Prop :=
  match rest with
  | [] => True
  | c :: _ => c = 0x2C ∨ c = 0x5D ∨ c = 0x7D

theorem stopOk_numStop (rest : List Nat) (h : stopOk rest) : numStop rest := by
  cases rest with
  | nil => trivial
  | cons c t =>
    rcases h with h | h | h <;> subst h <;> exact ⟨by decide, by decide, by decide, by decide⟩

theorem parseNatLoop_append (ds : List Nat) :
    ∀ acc rest, (∀ b ∈ ds, isDigitByte b = true) →
      (rest.head?.map isDigitByte).getD false = false →
      parseNatLoop acc (ds ++ rest)
        = (List.foldl (fun a b => a * 10 + (b - 0x30)) acc ds, rest) := by
  induction ds with
  | nil =>
    intro acc rest _ hrest
    cases rest with
    | nil => rfl
    | cons c t =>
      simp only [Option.map, Option.getD, List.head?] at hrest
      simp [parseNatLoop, hrest]
  | cons d ds ih =>
    intro acc rest hds hrest
    have hd : isDigitByte d = true := hds d (List.mem_cons_self d ds)
    simp only [List.cons_append, parseNatLoop, hd, if_true, List.foldl_cons]
    exact ih _ rest (fun b hb => hds b (List.mem_cons_of_mem d hb)) hrest

theorem numStop_head_not_digit (rest : List Nat) (h : numStop rest) :
    (rest.head?.map isDigitByte).getD false = false := by
  cases rest with
  | nil => rfl
  | cons c t => simpa using h.1

theorem parseNumBody_natDecimal (n : Nat) (rest : List Nat) (hstop : numStop rest) :
    parseNumBody (natDecimal n ++ rest) = some (n, rest) := by
  obtain ⟨d, ds, hcons, hd⟩ := natDecimal_head n
  have hfold : List.foldl (fun a b => a * 10 + (b - 0x30)) 0 (natDecimal n) = n := by
    by_cases h : n = 0
    · subst h; rfl
    · rw [natDecimal]
      simp only [h, if_false]
      rw [foldl_natDigits n 0]
      simp
  have hdigits : ∀ b ∈ natDecimal n, isDigitByte b = true := by
    by_cases h : n = 0
    · subst h
      intro b hb
      simp [natDecimal] at hb
      subst hb; decide
    · rw [natDecimal]; simp only [h, if_false]; exact natDigits_digits n
  have hloop := parseNatLoop_append ds (d - 0x30) rest
    (fun b hb => hdigits b (hcons ▸ List.mem_cons_of_mem d hb))
    (numStop_head_not_digit rest hstop)
  have hlead : (decide (d = 0x30) && ((ds ++ rest).head?.map isDigitByte).getD false)
      = false := by
    by_cases hz : n = 0
    · have hsing : ([0x30] : List Nat) = d :: ds := by
        rw [← hcons, natDecimal, if_pos hz]
      injection hsing with hd0 hds0
      subst hd0
      rw [← hds0]
      simpa using numStop_head_not_digit rest hstop
    · have hne : d ≠ 0x30 := by
        apply natDigits_head_ne_zero n hz d ds
        rw [← hcons, natDecimal]
        simp [hz]
      simp [hne]
  rw [hcons, List.cons_append, parseNumBody]
  simp only [hd, if_true, hlead, Bool.false_eq_true, if_false]
  rw [hloop]
  have hval : List.foldl (fun a b => a * 10 + (b - 0x30)) (d - 0x30) ds = n := by
    have h0 : List.foldl (fun a b => a * 10 + (b - 0x30)) 0 (d :: ds) = n := hcons ▸ hfold
    simpa using h0
  rw [hval]
  cases rest with
  | nil => rfl
  | cons c t =>
    obtain ⟨-, h1, h2, h3⟩ := hstop
    simp [h1, h2, h3]

theorem parseNumber_intDecimal (n : Int) (rest : List Nat) (hstop : numStop rest) :
    parseNumber (intDecimal n ++ rest) = some (.num n, rest) := by
  by_cases hneg : n < 0
  · rw [intDecimal]
    simp only [hneg, if_true, List.cons_append, parseNumber, if_pos rfl]
    rw [parseNumBody_natDecimal _ rest hstop]
    have : (((-n).toNat : Int)) = -n := Int.toNat_of_nonneg (by omega)
    simp [this]
  · rw [intDecimal]
    simp only [hneg, if_false]
    obtain ⟨d, ds, hcons, hd⟩ := natDecimal_head n.toNat
    have hne : d ≠ 0x2D := by
      simp only [isDigitByte, Bool.and_eq_true, decide_eq_true_eq] at hd
      omega
    rw [hcons, List.cons_append, parseNumber]
    simp only [hne, if_false]
    rw [← List.cons_append, ← hcons, parseNumBody_natDecimal _ rest hstop]
    have : ((n.toNat : Int)) = n := Int.toNat_of_nonneg (by omega)
    simp [this]

/-! ## Round-trip lemmas: strings and value heads -/

theorem hex_value_hexLower : ∀ v < 16, hex_value (hexLower v) = some v := by decide

theorem parseStringBody_quote (rest : List Nat) :
    parseStringBody (0x22 :: rest) = some ([], rest) := by
  unfold parseStringBody; simp

theorem parseStringBody_raw (b : Nat) (rest : List Nat) (hb1 : b ≠ 0x22) (hb2 : b ≠ 0x5C) :
    parseStringBody (b :: rest) = (parseStringBody rest).map fun p => (b :: p.1, p.2) := by
  conv_lhs => unfold parseStringBody
  simp [hb1, hb2]

theorem parseStringBody_esc (e c : Nat) (rest : List Nat) (he : e ≠ 0x75)
    (hc : unescapeChar e = some c) :
    parseStringBody (0x5C :: e :: rest)
      = (parseStringBody rest).map fun p => (c :: p.1, p.2) := by
  conv_lhs => unfold parseStringBody
  simp [he, hc]

theorem parseStringBody_u (h1 h2 h3 h4 v1 v2 v3 v4 : Nat) (rest : List Nat)
    (e1 : hex_value h1 = some v1) (e2 : hex_value h2 = some v2)
    (e3 : hex_value h3 = some v3) (e4 : hex_value h4 = some v4)
    (hlt : ((v1 * 16 + v2) * 16 + v3) * 16 + v4 < 0x80) :
    parseStringBody (0x5C :: 0x75 :: h1 :: h2 :: h3 :: h4 :: rest)
      = (parseStringBody rest).map
          fun p => ((((v1 * 16 + v2) * 16 + v3) * 16 + v4) :: p.1, p.2) := by
  conv_lhs => unfold parseStringBody
  simp [e1, e2, e3, e4, hlt]

theorem parseStringBody_escape (s : List Nat) :
    ∀ rest, parseStringBody (s.flatMap escapeByte ++ 0x22 :: rest) = some (s, rest) := by
  induction s with
  | nil => intro rest; simpa using parseStringBody_quote rest
  | cons b s ih =>
    intro rest
    simp only [List.flatMap_cons, List.append_assoc]
    by_cases h1 : b = 0x22
    · subst h1
      rw [show escapeByte 0x22 = [0x5C, 0x22] from rfl, List.cons_append, List.cons_append,
        List.nil_append, parseStringBody_esc 0x22 0x22 _ (by decide) (by decide), ih rest]
      rfl
    by_cases h2 : b = 0x5C
    · subst h2
      rw [show escapeByte 0x5C = [0x5C, 0x5C] from rfl, List.cons_append, List.cons_append,
        List.nil_append, parseStringBody_esc 0x5C 0x5C _ (by decide) (by decide), ih rest]
      rfl
    by_cases h3 : b = 0x08
    · subst h3
      rw [show escapeByte 0x08 = [0x5C, 0x62] from rfl, List.cons_append, List.cons_append,
        List.nil_append, parseStringBody_esc 0x62 0x08 _ (by decide) (by decide), ih rest]
      rfl
    by_cases h4 : b = 0x09
    · subst h4
      rw [show escapeByte 0x09 = [0x5C, 0x74] from rfl, List.cons_append, List.cons_append,
        List.nil_append, parseStringBody_esc 0x74 0x09 _ (by decide) (by decide), ih rest]
      rfl
    by_cases h5 : b = 0x0A
    · subst h5
      rw [show escapeByte 0x0A = [0x5C, 0x6E] from rfl, List.cons_append, List.cons_append,
        List.nil_append, parseStringBody_esc 0x6E 0x0A _ (by decide) (by decide), ih rest]
      rfl
    by_cases h6 : b = 0x0C
    · subst h6
      rw [show escapeByte 0x0C = [0x5C, 0x66] from rfl, List.cons_append, List.cons_append,
        List.nil_append, parseStringBody_esc 0x66 0x0C _ (by decide) (by decide), ih rest]
      rfl
    by_cases h7 : b = 0x0D
    · subst h7
      rw [show escapeByte 0x0D = [0x5C, 0x72] from rfl, List.cons_append, List.cons_append,
        List.nil_append, parseStringBody_esc 0x72 0x0D _ (by decide) (by decide), ih rest]
      rfl
    by_cases h8 : b < 0x20
    · have hesc : escapeByte b
          = [0x5C, 0x75, 0x30, 0x30, hexLower (b / 16), hexLower (b % 16)] := by
        simp [escapeByte, h1, h2, h3, h4, h5, h6, h7, h8]
      have e3 : hex_value (hexLower (b / 16)) = some (b / 16) :=
        hex_value_hexLower (b / 16) (by omega)
      have e4 : hex_value (hexLower (b % 16)) = some (b % 16) :=
        hex_value_hexLower (b % 16) (by omega)
      have hlt : ((0 * 16 + 0) * 16 + b / 16) * 16 + b % 16 < 0x80 := by omega
      rw [hesc]
      simp only [List.cons_append, List.nil_append]
      rw [parseStringBody_u 0x30 0x30 (hexLower (b / 16)) (hexLower (b % 16)) 0 0 (b / 16)
        (b % 16) _ (by decide) (by decide) e3 e4 hlt, ih rest]
      have hval : ((0 * 16 + 0) * 16 + b / 16) * 16 + b % 16 = b := by omega
      simp [hval]
      omega
    · have hesc : escapeByte b = [b] := by
        simp [escapeByte, h1, h2, h3, h4, h5, h6, h7, h8]
      rw [hesc]
      simp only [List.cons_append, List.nil_append]
      rw [parseStringBody_raw b _ h1 h2, ih rest]
      rfl

/-- The head of a rendered `Int`: a minus sign or a digit. -/
theorem intDecimal_head (n : Int) :
    ∃ d t, intDecimal n = d :: t ∧ (d = 0x2D ∨ isDigitByte d = true) := by
  by_cases hneg : n < 0
  · exact ⟨0x2D, natDecimal (-n).toNat, by simp [intDecimal, hneg], Or.inl rfl⟩
  · obtain ⟨d, ds, hcons, hd⟩ := natDecimal_head n.toNat
    exact ⟨d, ds, by simp [intDecimal, hneg, hcons], Or.inr hd⟩

/-- Every rendered value is a nonempty byte list whose head is not a
closing bracket, closing brace, comma or colon. -/
theorem render_cons (j : Json) :
    ∃ h t, render j = h :: t ∧ h ≠ 0x5D ∧ h ≠ 0x7D := by
  cases j with
  | null => exact ⟨0x6E, _, rfl, by decide, by decide⟩
  | bool b =>
    cases b
    · exact ⟨0x66, _, rfl, by decide, by decide⟩
    · exact ⟨0x74, _, rfl, by decide, by decide⟩
  | num n =>
    obtain ⟨d, t, hdt, hd⟩ := intDecimal_head n
    refine ⟨d, t, by simp [render, hdt], ?_, ?_⟩
    · rcases hd with hd | hd
      · omega
      · simp only [isDigitByte, Bool.and_eq_true, decide_eq_true_eq] at hd; omega
    · rcases hd with hd | hd
      · omega
      · simp only [isDigitByte, Bool.and_eq_true, decide_eq_true_eq] at hd; omega
  | str s => exact ⟨0x22, _, rfl, by decide, by decide⟩
  | arr xs => exact ⟨0x5B, _, rfl, by decide, by decide⟩
  | obj kvs => exact ⟨0x7B, _, rfl, by decide, by decide⟩

/-- A nonempty element list renders as the first element followed by a tail. -/
theorem renderElems_head (x : Json) (xs : List Json) :
    ∃ t, renderElems (x :: xs) = render x ++ t := by
  cases xs with
  | nil => exact ⟨[], by simp [renderElems]⟩
  | cons y ys => exact ⟨0x2C :: renderElems (y :: ys), rfl⟩

theorem jsonSize_pos (j : Json) : 1 ≤ jsonSize j := by
  cases j <;> simp [jsonSize]

theorem elemsSize_pos (xs : List Json) (h : xs ≠ []) : 1 ≤ elemsSize xs := by
  cases xs with
  | nil => exact absurd rfl h
  | cons x xs => simp only [elemsSize]; omega

theorem fieldsSize_pos (kvs : List (List Nat × Json)) (h : kvs ≠ []) : 1 ≤ fieldsSize kvs := by
  cases kvs with
  | nil => exact absurd rfl h
  | cons kv kvs => simp only [fieldsSize]; omega

/-! ## Parser step lemmas -/

theorem parseValue_null (fuel : Nat) (r : List Nat) :
    parseValue (fuel + 1) (0x6E :: 0x75 :: 0x6C :: 0x6C :: r) = some (.null, r) := by
  conv_lhs => unfold parseValue
  simp only [show asciiBytes "ull" = [0x75, 0x6C, 0x6C] from rfl]
  simp [dropLeading]

theorem parseValue_true (fuel : Nat) (r : List Nat) :
    parseValue (fuel + 1) (0x74 :: 0x72 :: 0x75 :: 0x65 :: r) = some (.bool true, r) := by
  conv_lhs => unfold parseValue
  simp only [show asciiBytes "rue" = [0x72, 0x75, 0x65] from rfl]
  simp [dropLeading]

theorem parseValue_false (fuel : Nat) (r : List Nat) :
    parseValue (fuel + 1) (0x66 :: 0x61 :: 0x6C :: 0x73 :: 0x65 :: r)
      = some (.bool false, r) := by
  conv_lhs => unfold parseValue
  simp only [show asciiBytes "alse" = [0x61, 0x6C, 0x73, 0x65] from rfl]
  simp [dropLeading]

theorem parseValue_str (fuel : Nat) (rest : List Nat) :
    parseValue (fuel + 1) (0x22 :: rest)
      = (parseStringBody rest).map fun p => (Json.str p.1, p.2) := by
  conv_lhs => unfold parseValue
  simp

theorem parseValue_arrNil (fuel : Nat) (r : List Nat) :
    parseValue (fuel + 1) (0x5B :: 0x5D :: r) = some (.arr [], r) := by
  conv_lhs => unfold parseValue
  simp

theorem parseValue_arrCons (fuel : Nat) (hh : Nat) (t : List Nat) (h : hh ≠ 0x5D) :
    parseValue (fuel + 1) (0x5B :: hh :: t)
      = (parseElemsNE fuel (hh :: t)).map fun p => (Json.arr p.1, p.2) := by
  conv_lhs => unfold parseValue
  simp [h]

theorem parseValue_objNil (fuel : Nat) (r : List Nat) :
    parseValue (fuel + 1) (0x7B :: 0x7D :: r) = some (.obj [], r) := by
  conv_lhs => unfold parseValue
  simp

theorem parseValue_objCons (fuel : Nat) (hh : Nat) (t : List Nat) (h : hh ≠ 0x7D) :
    parseValue (fuel + 1) (0x7B :: hh :: t)
      = (parseFieldsNE fuel (hh :: t)).map fun p => (Json.obj p.1, p.2) := by
  conv_lhs => unfold parseValue
  simp [h]

theorem parseValue_numHead (fuel : Nat) (d : Nat) (t : List Nat)
    (hd : d = 0x2D ∨ isDigitByte d = true) :
    parseValue (fuel + 1) (d :: t) = parseNumber (d :: t) := by
  have hdr : 0x2D ≤ d ∧ d ≤ 0x39 ∧ d ≠ 0x2E ∧ d ≠ 0x2F := by
    rcases hd with hd | hd
    · omega
    · simp only [isDigitByte, Bool.and_eq_true, decide_eq_true_eq] at hd; omega
  have h1 : d ≠ 0x6E := by omega
  have h2 : d ≠ 0x74 := by omega
  have h3 : d ≠ 0x66 := by omega
  have h4 : d ≠ 0x22 := by omega
  have h5 : d ≠ 0x5B := by omega
  have h6 : d ≠ 0x7B := by omega
  conv_lhs => unfold parseValue
  simp [h1, h2, h3, h4, h5, h6]

theorem parseElemsNE_eq (fuel : Nat) (input : List Nat) :
    parseElemsNE (fuel + 1) input
      = (parseValue fuel input).bind fun p =>
          match p.2 with
          | [] => none
          | c :: r2 =>
            if c = 0x2C then (parseElemsNE fuel r2).map fun q => (p.1 :: q.1, q.2)
            else if c = 0x5D then some ([p.1], r2)
            else none := by
  conv_lhs => unfold parseElemsNE

theorem parseFieldsNE_eq (fuel : Nat) (input : List Nat) :
    parseFieldsNE (fuel + 1) input
      = match input with
        | [] => none
        | b :: rest =>
          if b = 0x22 then
            (parseStringBody rest).bind fun kp =>
              match kp.2 with
              | [] => none
              | c :: r3 =>
                if c = 0x3A then
                  (parseValue fuel r3).bind fun vp =>
                    match vp.2 with
                    | [] => none
                    | d :: r5 =>
                      if d = 0x2C then
                        (parseFieldsNE fuel r5).map fun q => ((kp.1, vp.1) :: q.1, q.2)
                      else if d = 0x7D then some ([(kp.1, vp.1)], r5)
                      else none
                else none
          else none := by
  conv_lhs => unfold parseFieldsNE

/-! ## The framing/JSON round trip -/

theorem parse_render_all (fuel : Nat) :
    (∀ j rest, jsonSize j ≤ fuel → stopOk rest →
      parseValue fuel (render j ++ rest) = some (j, rest))
    ∧ (∀ xs rest, xs ≠ [] → elemsSize xs ≤ fuel →
      parseElemsNE fuel (renderElems xs ++ 0x5D :: rest) = some (xs, rest))
    ∧ (∀ kvs rest, kvs ≠ [] → fieldsSize kvs ≤ fuel →
      parseFieldsNE fuel (renderFields kvs ++ 0x7D :: rest) = some (kvs, rest)) := by
  induction fuel with
  | zero =>
    refine ⟨?_, ?_, ?_⟩
    · intro j rest hsize _
      have := jsonSize_pos j
      omega
    · intro xs rest hne hsize
      have := elemsSize_pos xs hne
      omega
    · intro kvs rest hne hsize
      have := fieldsSize_pos kvs hne
      omega
  | succ fuel ih =>
    obtain ⟨ihV, ihE, ihF⟩ := ih
    refine ⟨?_, ?_, ?_⟩
    · intro j rest hsize hstop
      cases j with
      | null => exact parseValue_null fuel rest
      | bool b =>
        cases b
        · exact parseValue_false fuel rest
        · exact parseValue_true fuel rest
      | num n =>
        obtain ⟨d, t, hdt, hd⟩ := intDecimal_head n
        have hr : render (.num n) ++ rest = d :: (t ++ rest) := by
          simp [render, hdt]
        rw [hr, parseValue_numHead fuel d (t ++ rest) hd, ← List.cons_append, ← hdt]
        exact parseNumber_intDecimal n rest (stopOk_numStop rest hstop)
      | str s =>
        have hr : render (.str s) ++ rest = 0x22 :: (s.flatMap escapeByte ++ 0x22 :: rest) := by
          simp [render, renderString]
        rw [hr, parseValue_str fuel, parseStringBody_escape s rest]
        rfl
      | arr xs =>
        cases xs with
        | nil =>
          have hr : render (.arr []) ++ rest = 0x5B :: 0x5D :: rest := by
            simp [render, renderElems]
          rw [hr]
          exact parseValue_arrNil fuel rest
        | cons x xs =>
          obtain ⟨hh, tt, hht, h5D, _⟩ := render_cons x
          obtain ⟨t2, ht2⟩ := renderElems_head x xs
          have hr : render (.arr (x :: xs)) ++ rest
              = 0x5B :: (renderElems (x :: xs) ++ 0x5D :: rest) := by
            simp [render]
          have hcons : renderElems (x :: xs) ++ 0x5D :: rest
              = hh :: (tt ++ t2 ++ 0x5D :: rest) := by
            rw [ht2, hht]
            simp
          rw [hr, hcons, parseValue_arrCons fuel hh _ h5D, ← hcons]
          rw [ihE (x :: xs) rest (by simp) ?hsz]
          · rfl
          case hsz =>
            simp only [jsonSize] at hsize
            omega
      | obj kvs =>
        cases kvs with
        | nil =>
          have hr : render (.obj []) ++ rest = 0x7B :: 0x7D :: rest := by
            simp [render, renderFields]
          rw [hr]
          exact parseValue_objNil fuel rest
        | cons kv kvs =>
          have hr : render (.obj (kv :: kvs)) ++ rest
              = 0x7B :: (renderFields (kv :: kvs) ++ 0x7D :: rest) := by
            simp [render]
          have hcons : ∃ t3, renderFields (kv :: kvs) ++ 0x7D :: rest
              = 0x22 :: t3 := by
            cases kvs with
            | nil =>
              refine ⟨kv.1.flatMap escapeByte ++ 0x22 :: (0x3A :: render kv.2 ++ 0x7D :: rest), ?_⟩
              simp [renderFields, renderString]
            | cons kv2 kvs2 =>
              refine ⟨kv.1.flatMap escapeByte
                ++ 0x22 :: (0x3A :: (render kv.2 ++ 0x2C :: renderFields (kv2 :: kvs2))
                  ++ 0x7D :: rest), ?_⟩
              simp [renderFields, renderString]
          obtain ⟨t3, ht3⟩ := hcons
          rw [hr, ht3, parseValue_objCons fuel 0x22 t3 (by decide), ← ht3]
          rw [ihF (kv :: kvs) rest (by simp) ?hsz2]
          · rfl
          case hsz2 =>
            simp only [jsonSize] at hsize
            omega
    · intro xs rest hne hsize
      cases xs with
      | nil => exact absurd rfl hne
      | cons x xs =>
        cases xs with
        | nil =>
          have hr : renderElems [x] ++ 0x5D :: rest = render x ++ 0x5D :: rest := by
            simp [renderElems]
          have hv := ihV x (0x5D :: rest) ?hszx (Or.inr (Or.inl rfl))
          case hszx =>
            simp only [elemsSize, jsonSize] at hsize ⊢
            omega
          rw [hr, parseElemsNE_eq fuel, hv]
          simp
        | cons y ys =>
          have hr : renderElems (x :: y :: ys) ++ 0x5D :: rest
              = render x ++ (0x2C :: (renderElems (y :: ys) ++ 0x5D :: rest)) := by
            simp only [renderElems]
            simp
          have hszs : jsonSize x ≤ fuel ∧ elemsSize (y :: ys) ≤ fuel := by
            simp only [elemsSize] at hsize ⊢
            have h1 := jsonSize_pos x
            have h2 := jsonSize_pos y
            omega
          have hv := ihV x (0x2C :: (renderElems (y :: ys) ++ 0x5D :: rest)) hszs.1
            (Or.inl rfl)
          rw [hr, parseElemsNE_eq fuel, hv]
          simp [ihE (y :: ys) rest (by simp) hszs.2]
    · intro kvs rest hne hsize
      cases kvs with
      | nil => exact absurd rfl hne
      | cons kv kvs =>
        cases kvs with
        | nil =>
          have hr : renderFields [kv] ++ 0x7D :: rest
              = 0x22 :: (kv.1.flatMap escapeByte
                  ++ 0x22 :: (0x3A :: (render kv.2 ++ 0x7D :: rest))) := by
            simp [renderFields, renderString]
          have hv := ihV kv.2 (0x7D :: rest) ?hszkv (Or.inr (Or.inr rfl))
          case hszkv =>
            simp only [fieldsSize] at hsize
            omega
          rw [hr, parseFieldsNE_eq fuel]
          simp [parseStringBody_escape kv.1, hv]
        | cons kv2 kvs2 =>
          have hr : renderFields (kv :: kv2 :: kvs2) ++ 0x7D :: rest
              = 0x22 :: (kv.1.flatMap escapeByte
                  ++ 0x22 :: (0x3A :: (render kv.2
                    ++ 0x2C :: (renderFields (kv2 :: kvs2) ++ 0x7D :: rest)))) := by
            simp only [renderFields, renderString]
            simp
          have hszs : jsonSize kv.2 ≤ fuel ∧ fieldsSize (kv2 :: kvs2) ≤ fuel := by
            simp only [fieldsSize] at hsize ⊢
            have h1 := jsonSize_pos kv.2
            have h2 := jsonSize_pos kv2.2
            omega
          have hv := ihV kv.2 (0x2C :: (renderFields (kv2 :: kvs2) ++ 0x7D :: rest)) hszs.1
            (Or.inl rfl)
          rw [hr, parseFieldsNE_eq fuel]
          simp [parseStringBody_escape kv.1, hv, ihF (kv2 :: kvs2) rest (by simp) hszs.2]

mutual
/-- The fuel bound is covered by the rendered length. -/
theorem jsonSize_le_render (j : Json) : jsonSize j ≤ (render j).length := by
  cases j with
  | null => decide
  | bool b => cases b <;> decide
  | num n =>
    obtain ⟨d, t, hdt, _⟩ := intDecimal_head n
    simp [jsonSize, render, hdt]
  | str s =>
    simp only [jsonSize, render, renderString, List.length_cons, List.length_append]
    omega
  | arr xs =>
    have h := elemsSize_le_render xs
    simp only [jsonSize, render, List.length_cons, List.length_append]
    omega
  | obj kvs =>
    have h := fieldsSize_le_render kvs
    simp only [jsonSize, render, List.length_cons, List.length_append]
    omega

/-- Auxiliary length bound for element lists. -/
theorem elemsSize_le_render (xs : List Json) :
    elemsSize xs ≤ (renderElems xs).length + 1 := by
  cases xs with
  | nil => simp [elemsSize, renderElems]
  | cons x xs =>
    cases xs with
    | nil =>
      have h := jsonSize_le_render x
      simp only [elemsSize, renderElems]
      omega
    | cons y ys =>
      have h1 := jsonSize_le_render x
      have h2 := elemsSize_le_render (y :: ys)
      have e1 : elemsSize (x :: y :: ys) = 1 + jsonSize x + elemsSize (y :: ys) := rfl
      have e2 : renderElems (x :: y :: ys) = render x ++ 0x2C :: renderElems (y :: ys) := rfl
      rw [e1, e2]
      simp only [List.length_append, List.length_cons]
      omega

/-- Auxiliary length bound for field lists. -/
theorem fieldsSize_le_render (kvs : List (List Nat × Json)) :
    fieldsSize kvs ≤ (renderFields kvs).length + 1 := by
  cases kvs with
  | nil => simp [fieldsSize, renderFields]
  | cons kv kvs =>
    cases kvs with
    | nil =>
      have h := jsonSize_le_render kv.2
      simp only [fieldsSize, renderFields, List.length_append, List.length_cons]
      omega
    | cons kv2 kvs2 =>
      have h1 := jsonSize_le_render kv.2
      have h2 := fieldsSize_le_render (kv2 :: kvs2)
      have e1 : fieldsSize (kv :: kv2 :: kvs2) = 1 + jsonSize kv.2 + fieldsSize (kv2 :: kvs2) := rfl
      have e2 : renderFields (kv :: kv2 :: kvs2)
          = renderString kv.1 ++ 0x3A :: render kv.2 ++ 0x2C :: renderFields (kv2 :: kvs2) := rfl
      rw [e1, e2]
      simp only [List.length_append, List.length_cons]
      omega
end

/-- JSON round trip: parsing a rendered value gives the value back. -/
theorem parseJson_render (j : Json) : parseJson (render j) = some j := by
  have h := (parse_render_all ((render j).length + 1)).1 j []
    (by have := jsonSize_le_render j; omega) trivial
  rw [List.append_nil] at h
  unfold parseJson
  rw [h]

/-! ## Content-Length framing: Transport (send_message) and Reader (reader_loop)

`send_message` writes `Content-Length: <N>\r\n\r\n` followed by the body,
holding the stdin lock for both writes. `reader_loop` reads header lines
until a blank line, requires a parsable `Content-Length`, enforces the size
cap before allocating the body buffer, reads exactly that many bytes and
parses them as JSON. The input stream is modelled as a finite byte list;
reaching its end is end-of-file. -/

/-- `MAX_LSP_MESSAGE_SIZE` from lsp_client.rs: 100 MB cap. -/
def MAX_LSP_MESSAGE_SIZE : Nat := 100 * 1024 * 1024

/-- The framing header `Content-Length: <n>\r\n\r\n` built by `send_message`. -/
def contentLengthHeader (n : Nat) : List Nat :=
  asciiBytes "Content-Length: " ++ natDecimal n ++ [0x0D, 0x0A, 0x0D, 0x0A]

/-- The byte sequence `send_message` writes for a message body: header then
body, as one unit under the stdin lock. -/
def frameMessage (body : List Nat) : List Nat :=
  contentLengthHeader body.length ++ body

/-- Rust `char::is_whitespace` restricted to the byte range that can occur
in a header line (space and the C0 whitespace controls). -/
def isWsByte (b : Nat) : Bool := b == 0x20 || (0x09 ≤ b && b ≤ 0x0D)

/-- Rust `str::trim` at byte level. -/
def trimBytes (l : List Nat) : List Nat :=
  ((l.dropWhile isWsByte).reverse.dropWhile isWsByte).reverse

/-- `AsyncBufReadExt::read_line`: take bytes up to and including the first
newline (or everything, at end of stream); returns the line and the rest.
The line is empty exactly when the stream is exhausted. -/
def readLine : List Nat → List Nat × List Nat
  | [] => ([], [])
  | b :: rest =>
    if b = 0x0A then ([b], rest)
    else
      let p := readLine rest
      (b :: p.1, p.2)

/-- Rust `str::parse::<usize>`: optional leading `+`, then one or more
digits (overflow is not modelled; header values stay far below it). -/
def parseUsize (l : List Nat) : Option Nat :=
  let l2 := if l.head? = some 0x2B then l.tail else l
  if l2.isEmpty then none
  else if l2.all isDigitByte then
    some (l2.foldl (fun acc b => acc * 10 + (b - 0x30)) 0)
  else none

/-- Result of the header-reading loop of `reader_loop`. -/
inductive HeaderOutcome where
  | eof
  | badLength
  | done (contentLength : Option Nat) (rest : List Nat)
deriving DecidableEq

/-- The header loop of `reader_loop`: read lines until a blank line,
remembering the value of the last `Content-Length` header; a zero-byte
read (exhausted input) means orderly end of stream; an unparsable value is
a hard error. The fuel argument (instantiated with more than the input
length, enough because every line consumes at least one byte) keeps the
recursion structural. -/
def readHeadersF : Nat → List Nat → Option Nat → HeaderOutcome
  | 0, _, _ => .eof
  | fuel + 1, input, acc =>
    if input.isEmpty then .eof
    else
      let p := readLine input
      let trimmed := trimBytes p.1
      if trimmed.isEmpty then .done acc p.2
      else
        (dropLeading (asciiBytes "Content-Length: ") trimmed).elim
          (readHeadersF fuel p.2 acc)
          (fun lenStr =>
            (parseUsize lenStr).elim .badLength
              (fun len => readHeadersF fuel p.2 (some len)))

/-- The header loop at adequate fuel. -/
def readHeaders (input : List Nat) (acc : Option Nat) : HeaderOutcome :=
  readHeadersF (input.length + 1) input acc

/-- Errors that terminate `reader_loop`. -/
inductive ReadErr where
  | invalidContentLength
  | missingContentLength
  | oversized
  | bodyEof
  | invalidJson
deriving DecidableEq

/-- Result of reading one framed message from the stream. -/
inductive ReadResult where
  | eof
  | msg (m : Json) (rest : List Nat)
  | err (e : ReadErr)

/-- Body phase of `reader_loop`: the size cap is enforced before the body
buffer is allocated or any body byte is read; then exactly `length` bytes
are read (failing if the stream ends first) and parsed as JSON. -/
def readBody (length : Nat) (rest : List Nat) : ReadResult :=
  if length > MAX_LSP_MESSAGE_SIZE then .err .oversized
  else if rest.length < length then .err .bodyEof
  else (parseJson (rest.take length)).elim (.err .invalidJson)
    (fun m => .msg m (rest.drop length))

/-- One iteration of `reader_loop`: headers, then the body. A missing
`Content-Length` after the blank line is a hard error. -/
def readMessage (input : List Nat) : ReadResult :=
  match readHeaders input none with
  | .eof => .eof
  | .badLength => .err .invalidContentLength
  | .done optLen rest =>
    match optLen with
    | none => .err .missingContentLength
    | some length => readBody length rest

/-! ## Framing lemmas -/

theorem readLine_append (l : List Nat) (rest : List Nat) (h : 0x0A ∉ l) :
    readLine (l ++ 0x0A :: rest) = (l ++ [0x0A], rest) := by
  induction l with
  | nil => simp [readLine]
  | cons b t ih =>
    have hb : b ≠ 0x0A := fun hc => h (hc ▸ List.mem_cons_self b t)
    have ht : 0x0A ∉ t := fun hc => h (List.mem_cons_of_mem b hc)
    simp [readLine, hb, ih ht]

theorem digit_not_ws (b : Nat) (h : isDigitByte b = true) : isWsByte b = false := by
  simp only [isDigitByte, Bool.and_eq_true, decide_eq_true_eq] at h
  have h1 : (b == 0x20) = false := by
    rw [beq_eq_false_iff_ne]; omega
  have h2 : (decide (b ≤ 0x0D)) = false := by
    rw [decide_eq_false_iff_not]; omega
  simp [isWsByte, h1, h2]

theorem trim_header (ds : List Nat) (hne : ds ≠ [])
    (hdig : ∀ b ∈ ds, isDigitByte b = true) :
    trimBytes (asciiBytes "Content-Length: " ++ ds ++ [0x0D, 0x0A])
      = asciiBytes "Content-Length: " ++ ds := by
  have hCL : asciiBytes "Content-Length: " = 0x43 :: asciiBytes "ontent-Length: " := rfl
  have hrev : ds.reverse ≠ [] := by simpa using hne
  obtain ⟨d, t, hdt⟩ := List.exists_cons_of_ne_nil hrev
  have hd : isDigitByte d = true := by
    apply hdig
    rw [← List.mem_reverse, hdt]
    exact List.mem_cons_self d t
  have hdw := digit_not_ws d hd
  rw [trimBytes]
  have hleft : List.dropWhile isWsByte (asciiBytes "Content-Length: " ++ ds ++ [0x0D, 0x0A])
      = asciiBytes "Content-Length: " ++ ds ++ [0x0D, 0x0A] := by
    rw [hCL]
    simp only [List.cons_append, List.dropWhile_cons,
      show isWsByte 0x43 = false from rfl, Bool.false_eq_true, if_false]
  rw [hleft]
  have h1 : (asciiBytes "Content-Length: " ++ ds ++ [0x0D, 0x0A]).reverse
      = 0x0A :: 0x0D :: (ds.reverse ++ (asciiBytes "Content-Length: ").reverse) := by
    simp
  rw [h1]
  rw [List.dropWhile_cons, List.dropWhile_cons]
  simp only [show isWsByte 0x0A = true from rfl, show isWsByte 0x0D = true from rfl, if_true]
  rw [hdt, List.cons_append, List.dropWhile_cons]
  simp only [hdw, Bool.false_eq_true, if_false]
  rw [show d :: (t ++ (asciiBytes "Content-Length: ").reverse)
      = (d :: t) ++ (asciiBytes "Content-Length: ").reverse from rfl]
  rw [← hdt]
  simp

/-- The digit-fold of a rendered `Nat` recovers it. -/
theorem natDecimal_foldl (n : Nat) :
    List.foldl (fun acc b => acc * 10 + (b - 0x30)) 0 (natDecimal n) = n := by
  by_cases h : n = 0
  · subst h; rfl
  · rw [natDecimal]
    simp only [h, if_false]
    rw [foldl_natDigits n 0]
    simp

theorem natDecimal_digits (n : Nat) : ∀ b ∈ natDecimal n, isDigitByte b = true := by
  by_cases h : n = 0
  · subst h
    intro b hb
    simp [natDecimal] at hb
    subst hb; decide
  · rw [natDecimal]
    simp only [h, if_false]
    exact natDigits_digits n

theorem natDecimal_ne_nil (n : Nat) : natDecimal n ≠ [] := by
  obtain ⟨d, ds, hcons, -⟩ := natDecimal_head n
  rw [hcons]
  simp

theorem parseUsize_natDecimal (n : Nat) : parseUsize (natDecimal n) = some n := by
  obtain ⟨d, ds, hcons, hd⟩ := natDecimal_head n
  have hdig : isDigitByte d = true := hd
  simp only [isDigitByte, Bool.and_eq_true, decide_eq_true_eq] at hd
  have hplus : ¬(some d = some (0x2B : Nat)) := by
    intro hc
    injection hc with hc
    omega
  have hall : (d :: ds).all isDigitByte = true := by
    rw [List.all_eq_true, ← hcons]
    exact natDecimal_digits n
  rw [parseUsize, hcons]
  simp only [List.head?_cons, List.tail_cons]
  rw [if_neg hplus]
  simp only [List.isEmpty_cons, Bool.false_eq_true, if_false]
  simp only [hall, if_true]
  rw [← hcons, natDecimal_foldl]

/-- The header bytes contain no newline before the first line terminator. -/
theorem no_newline_header (n : Nat) :
    (0x0A : Nat) ∉ asciiBytes "Content-Length: " ++ natDecimal n ++ [0x0D] := by
  intro hmem
  rcases List.mem_append.1 hmem with hmem | hmem
  · rcases List.mem_append.1 hmem with hmem | hmem
    · revert hmem; decide
    · have := natDecimal_digits n _ hmem
      simp only [isDigitByte, Bool.and_eq_true, decide_eq_true_eq] at this
      omega
  · simp at hmem

/-- The header loop consumes exactly the framing header: one header line
carrying the length, then the blank line. -/
theorem readHeadersF_frame (fuel n : Nat) (rest : List Nat) :
    readHeadersF (fuel + 2) (contentLengthHeader n ++ rest) none
      = .done (some n) rest := by
  have hCL : asciiBytes "Content-Length: " = 0x43 :: asciiBytes "ontent-Length: " := rfl
  have hsplit : contentLengthHeader n ++ rest
      = (asciiBytes "Content-Length: " ++ natDecimal n ++ [0x0D])
          ++ 0x0A :: (0x0D :: 0x0A :: rest) := by
    rw [contentLengthHeader]
    simp
  have hline := readLine_append (asciiBytes "Content-Length: " ++ natDecimal n ++ [0x0D])
    (0x0D :: 0x0A :: rest) (no_newline_header n)
  have hlineval : (asciiBytes "Content-Length: " ++ natDecimal n ++ [0x0D]) ++ [0x0A]
      = asciiBytes "Content-Length: " ++ natDecimal n ++ [0x0D, 0x0A] := by
    simp
  have htrim := trim_header (natDecimal n) (natDecimal_ne_nil n) (natDecimal_digits n)
  have hne2 : ((asciiBytes "Content-Length: " ++ natDecimal n).isEmpty = true) → False := by
    rw [hCL]
    simp
  show readHeadersF ((fuel + 1) + 1) (contentLengthHeader n ++ rest) none = _
  conv_lhs => unfold readHeadersF
  rw [hsplit]
  rw [if_neg (by rw [hCL]; simp)]
  dsimp only
  rw [hline]
  dsimp only
  rw [hlineval, htrim]
  rw [if_neg hne2]
  rw [dropLeading_append (asciiBytes "Content-Length: ") (natDecimal n)]
  simp only [Option.elim]
  rw [parseUsize_natDecimal n]
  simp only [Option.elim]
  conv_lhs => unfold readHeadersF
  rw [if_neg (by simp)]
  dsimp only
  rw [show (0x0D : Nat) :: 0x0A :: rest = [0x0D] ++ 0x0A :: rest from rfl]
  rw [readLine_append [0x0D] rest (by decide)]
  dsimp only
  rw [show trimBytes ([0x0D] ++ [0x0A]) = [] from rfl]
  rfl

/-- One `reader_loop` iteration on a framed input reaches the body phase
with the declared length. -/
theorem readMessage_frame (n : Nat) (rest : List Nat) :
    readMessage (contentLengthHeader n ++ rest) = readBody n rest := by
  rw [readMessage, readHeaders]
  have hlen : 1 ≤ (contentLengthHeader n ++ rest).length := by
    rw [contentLengthHeader]
    simp
    omega
  rw [show (contentLengthHeader n ++ rest).length + 1
      = ((contentLengthHeader n ++ rest).length - 1) + 2 from by omega]
  rw [readHeadersF_frame]

/-! ## Session model (LspClient)

The shared mutable state of `LspClient` is modelled explicitly; the
environment (pipe write failures, response arrival, timeout expiry) enters
as parameters, since those are decided outside the client. -/

/-- `i64` wrap-around arithmetic: `AtomicI64::fetch_add` always wraps. -/
def I64_WRAP (x : Int) : Int := (x + 2 ^ 63) % 2 ^ 64 - 2 ^ 63

/-- `i32` wrap-around arithmetic, for the document version counter
(`*version += 1` on an `i32` wraps in release builds; a debug build would
panic instead of storing a value — either way the increment-by-one reading
fails at `i32::MAX`, and the wrapping outcome is the one modelled). -/
def I32_WRAP (x : Int) : Int := (x + 2 ^ 31) % 2 ^ 32 - 2 ^ 31

/-- The value of `next_id` before the `k`-th (0-based) allocation: `next_id`
starts at 1 (`AtomicI64::new(1)`) and `fetch_add(1, Relaxed)` returns the
previous value, so this is also the id returned by the `k`-th `request`
call on a session. -/
def nthNextId : Nat → Int
  | 0 => 1
  | k + 1 => I64_WRAP (nthNextId k + 1)

/-- The mutable state of `LspClient` the claims observe: the id counter,
the key set of the `pending` map (the oneshot slots carry no data the
claims need), the `opened_files` map (path to version and content hash),
and the `alive` flag. -/
structure LspState where
  nextId : Int
  pending : List Int
  openedFiles : List (List Nat × (Int × Nat))
  alive : Bool

/-- `HashMap::insert` on the key set of `pending`. -/
def insertPending (id : Int) (l : List Int) : List Int :=
  if id ∈ l then l else id :: l

/-- `HashMap::remove` on the key set of `pending`. -/
def removePending (id : Int) (l : List Int) : List Int :=
  l.filter fun x => x != id

/-- Last-match association lookup: serde `Value::get` for object members
(`serde_json`'s map keeps the last value for a repeated key). -/
def lookupLast (kvs : List (List Nat × Json)) (key : List Nat) : Option Json :=
  match kvs with
  | [] => none
  | kv :: rest =>
    match lookupLast rest key with
    | some r => some r
    | none => if kv.1 = key then some kv.2 else none

/-- `serde_json::Value::get` on an object. -/
def Json.getField (j : Json) (key : List Nat) : Option Json :=
  match j with
  | .obj kvs => lookupLast kvs key
  | _ => none

/-- `serde_json::Value::as_i64`: integer numbers in `i64` range only. -/
def Json.asI64 (j : Json) : Option Int :=
  match j with
  | .num n => if -(2 ^ 63) ≤ n ∧ n < 2 ^ 63 then some n else none
  | _ => none

/-- The JSON-RPC request message `LspClient::request` builds. -/
def requestMsg (id : Int) (method : List Nat) (params : Json) : Json :=
  Json.obj [(asciiBytes "jsonrpc", Json.str (asciiBytes "2.0")),
    (asciiBytes "id", Json.num id),
    (asciiBytes "method", Json.str method),
    (asciiBytes "params", params)]

/-- The JSON-RPC notification message `LspClient::notify` builds (no id). -/
def notifyMsg (method : List Nat) (params : Json) : Json :=
  Json.obj [(asciiBytes "jsonrpc", Json.str (asciiBytes "2.0")),
    (asciiBytes "method", Json.str method),
    (asciiBytes "params", params)]

/-- Errors a `request`/`notify`/`ensure_file_open` caller can observe. -/
inductive ReqErr where
  | invalidPath          -- file_uri rejected a non-absolute path
  | deadSession          -- send_message found alive = false
  | sendIoError          -- a pipe write failed
  | channelClosed        -- oneshot sender dropped (reader drained pending)
  | timedOut             -- the 30 s timeout elapsed
  | lspError (e : Json)  -- the response carried an error member

/-- Environment outcome of awaiting the oneshot receiver under the 30 s
timeout in `LspClient::request`. -/
inductive AwaitOutcome where
  | received (v : Json)
  | channelClosed
  | timedOut

/-- Observable outcome of one client call: the successor state, the bytes
written to the child stdin (`none` when no write was attempted), and the
returned value. -/
structure CallTrace (α : Type) where
  state : LspState
  written : Option (List Nat)
  result : Except ReqErr α

/-- `LspClient::send_message`: return an error immediately when the reader
task has cleared `alive` (nothing is written); otherwise write header and
body as one unit under the stdin lock (`ioFails` models a write error). -/
def send_message (st : LspState) (msg : Json) (ioFails : Bool) :
    Option (List Nat) × Except ReqErr Unit :=
  if !st.alive then (none, .error .deadSession)
  else if ioFails then (some (frameMessage (render msg)), .error .sendIoError)
  else (some (frameMessage (render msg)), .ok ())

/-- `LspClient::request`: allocate the id by fetch-and-increment, insert
the pending entry, send; on send failure remove the entry and return the
error; otherwise await: on timeout or a closed channel remove the entry
and return an error; on a response, an `error` member is surfaced as an
error, otherwise the `result` member (or null) is returned. The removal
done by the Reader Loop on resolution is modelled by `dispatchMessage`,
not here. -/
def request (st : LspState) (method : List Nat) (params : Json) (ioFails : Bool)
    (aw : AwaitOutcome) : CallTrace Json :=
  let id := st.nextId
  let st1 : LspState :=
    { st with
      nextId := I64_WRAP (st.nextId + 1)
      pending := insertPending st.nextId st.pending }
  let sendRes := send_message st1 (requestMsg id method params) ioFails
  match sendRes.2 with
  | .error e =>
    { state := { st1 with pending := removePending id st1.pending },
      written := sendRes.1, result := .error e }
  | .ok _ =>
    match aw with
    | .timedOut =>
      { state := { st1 with pending := removePending id st1.pending },
        written := sendRes.1, result := .error .timedOut }
    | .channelClosed =>
      { state := { st1 with pending := removePending id st1.pending },
        written := sendRes.1, result := .error .channelClosed }
    | .received v =>
      match v.getField (asciiBytes "error") with
      | some e => { state := st1, written := sendRes.1, result := .error (.lspError e) }
      | none =>
        { state := st1, written := sendRes.1,
          result := .ok ((v.getField (asciiBytes "result")).getD Json.null) }

/-- `LspClient::notify`: build the message and send it; no state change. -/
def notify (st : LspState) (method : List Nat) (params : Json) (ioFails : Bool) :
    CallTrace Unit :=
  let r := send_message st (notifyMsg method params) ioFails
  { state := st, written := r.1, result := r.2 }

/-- What `reader_loop` does with one parsed message. -/
inductive DispatchAction where
  | resolved (id : Int)        -- removed and fulfilled the pending entry
  | unknownResponse (id : Int) -- logged a response with no pending entry
  | notificationLogged         -- logged a server-initiated notification
deriving DecidableEq

/-- The dispatch step of `reader_loop`: a message with an `i64`-valued `id`
member resolves (removes and fulfills) the matching pending entry if one
exists, is logged otherwise; anything else is logged as a notification.
Nothing here is fatal. -/
def dispatchMessage (msg : Json) (pending : List Int) : List Int × DispatchAction :=
  match (msg.getField (asciiBytes "id")).bind Json.asI64 with
  | some id =>
    if id ∈ pending then (removePending id pending, .resolved id)
    else (pending, .unknownResponse id)
  | none => (pending, .notificationLogged)

/-- `HashMap::get` on `opened_files` (unique keys). -/
def lookupFile (files : List (List Nat × (Int × Nat))) (path : List Nat) :
    Option (Int × Nat) :=
  match files with
  | [] => none
  | kv :: rest => if kv.1 = path then some kv.2 else lookupFile rest path

/-- In-place update of an `opened_files` entry (`get_mut` write-back). -/
def updateFile (files : List (List Nat × (Int × Nat))) (path : List Nat)
    (e : Int × Nat) : List (List Nat × (Int × Nat)) :=
  files.map fun kv => if kv.1 = path then (kv.1, e) else kv

/-- Serialized `DidOpenTextDocumentParams` (field order of the structs). -/
def didOpenParams (uri languageId : List Nat) (version : Int) (text : List Nat) : Json :=
  Json.obj [(asciiBytes "textDocument", Json.obj [
    (asciiBytes "uri", Json.str uri),
    (asciiBytes "languageId", Json.str languageId),
    (asciiBytes "version", Json.num version),
    (asciiBytes "text", Json.str text)])]

/-- Serialized `DidChangeTextDocumentParams` with one whole-document
change (range fields are `None` and omitted). -/
def didChangeParams (uri : List Nat) (version : Int) (text : List Nat) : Json :=
  Json.obj [(asciiBytes "textDocument", Json.obj [
      (asciiBytes "uri", Json.str uri),
      (asciiBytes "version", Json.num version)]),
    (asciiBytes "contentChanges", Json.arr [Json.obj [(asciiBytes "text", Json.str text)]])]

/-- `LspClient::ensure_file_open`. The `tokio::fs::read_to_string` result is
the `content` argument (the claims quantify over file contents); the
`DefaultHasher` fingerprint is an explicit hash-function parameter, since
only equality of fingerprints matters. The version counter is an `i32` in
the source (`opened_files: HashMap<String, (i32, u64)>`), so the
`*version += 1` update is modelled with explicit `i32` wrapping
arithmetic. The `opened_files` lock is released before the notification
send is awaited: the successor state is fixed before the send outcome is
known, exactly as in the source. -/
def ensure_file_open (hash : List Nat → Nat) (st : LspState) (path content : List Nat)
    (ioFails : Bool) : CallTrace Unit :=
  match file_uri path with
  | .error _ => { state := st, written := none, result := .error .invalidPath }
  | .ok uri =>
    let h := hash content
    let languageId := detect_language_id path
    match lookupFile st.openedFiles path with
    | some ve =>
      if ve.2 = h then { state := st, written := none, result := .ok () }
      else
        let st2 : LspState :=
          { st with openedFiles := updateFile st.openedFiles path (I32_WRAP (ve.1 + 1), h) }
        let r := send_message st2
          (notifyMsg (asciiBytes "textDocument/didChange")
            (didChangeParams uri (I32_WRAP (ve.1 + 1)) content)) ioFails
        { state := st2, written := r.1, result := r.2 }
    | none =>
      let st2 : LspState := { st with openedFiles := (path, (0, h)) :: st.openedFiles }
      let r := send_message st2
        (notifyMsg (asciiBytes "textDocument/didOpen")
          (didOpenParams uri languageId 0 content)) ioFails
      { state := st2, written := r.1, result := r.2 }

/-! ## Percent-encoding round trip (URI layer) -/

theorem hex_value_hex_upper : ∀ v < 16, hex_value (hex_upper v) = some v := by decide

theorem percent_decode_raw (b : Nat) (rest : List Nat) (h : b ≠ 0x25) :
    percent_decode_path (b :: rest) = (percent_decode_path rest).map fun d => b :: d := by
  conv_lhs => unfold percent_decode_path
  simp [h]

theorem percent_decode_pct (hi lo : Nat) (rest : List Nat) :
    percent_decode_path (0x25 :: hi :: lo :: rest)
      = (hex_value hi).bind fun h =>
          (hex_value lo).bind fun l =>
            (percent_decode_path rest).map fun d => (h * 16 + l) :: d := by
  conv_lhs => unfold percent_decode_path
  simp

theorem unreserved_ne_pct (b : Nat) (h : is_unreserved_path_byte b = true) : b ≠ 0x25 := by
  simp only [is_unreserved_path_byte, Bool.or_eq_true, Bool.and_eq_true,
    decide_eq_true_eq, beq_iff_eq] at h
  omega

/-- Decoding inverts encoding, byte for byte. -/
theorem percent_decode_encode (p : List Nat) (h : ∀ b ∈ p, b < 256) :
    percent_decode_path (percent_encode_path p) = some p := by
  induction p with
  | nil => rfl
  | cons b t ih =>
    have hb : b < 256 := h b (List.mem_cons_self b t)
    have iht := ih fun x hx => h x (List.mem_cons_of_mem b hx)
    by_cases hu : is_unreserved_path_byte b = true
    · rw [show percent_encode_path (b :: t) = b :: percent_encode_path t from by
        simp [percent_encode_path, hu]]
      rw [percent_decode_raw b _ (unreserved_ne_pct b hu), iht]
      rfl
    · rw [show percent_encode_path (b :: t)
          = 0x25 :: hex_upper (b / 16) :: hex_upper (b % 16) :: percent_encode_path t from by
        simp [percent_encode_path, hu]]
      rw [percent_decode_pct, hex_value_hex_upper (b / 16) (by omega),
        hex_value_hex_upper (b % 16) (by omega)]
      simp only [Option.some_bind]
      rw [iht]
      have hval : b / 16 * 16 + b % 16 = b := by omega
      simp [hval]

/-- Claim C4: for every absolute filesystem path (bytes of a Rust string,
hence below 256), `uri_to_path` after `file_uri` is the identity: the
scheme that `file_uri` prepends is stripped and the percent-encoding is
inverted exactly. -/
theorem claim_C4_uri_round_trip (path : List Nat) (habs : isAbsolutePath path = true)
    (hbytes : ∀ b ∈ path, b < 256) :
    (file_uri path).map uri_to_path = .ok path := by
  rw [file_uri, if_pos habs]
  simp only [Except.map]
  rw [uri_to_path]
  simp only [dropLeading_append, Option.getD_some]
  rw [percent_decode_encode path hbytes]
  rfl

/-- Claim C4 witness: the round trip at `/tmp/a b.rs` (a reserved space). -/
theorem claim_C4_witness :
    (file_uri (asciiBytes "/tmp/a b.rs")).map uri_to_path = .ok (asciiBytes "/tmp/a b.rs")
    ∧ isAbsolutePath (asciiBytes "/tmp/a b.rs") = true := by
  refine ⟨claim_C4_uri_round_trip (asciiBytes "/tmp/a b.rs") (by decide) (by decide), by decide⟩

/-- Modelled from the spec (refinement target for C9): a byte is kept
exactly when it is an ASCII letter, an ASCII digit, or one of the bytes
`-`, `_`, `.`, `~`, `/`; every other byte is replaced by `%` followed by
its two uppercase hexadecimal digits, drawn from `0123456789ABCDEF`. -/
def specUnreservedByte (b : Nat) : Bool :=
  (0x41 ≤ b && b ≤ 0x5A) || (0x61 ≤ b && b ≤ 0x7A) || (0x30 ≤ b && b ≤ 0x39)
    || b == 0x2D || b == 0x5F || b == 0x2E || b == 0x7E || b == 0x2F

/-- Modelled from the spec: the two uppercase hex digits of a byte. -/
def specUpperHexDigits (b : Nat) : List Nat :=
  [(asciiBytes "0123456789ABCDEF").getD (b / 16) 0x3F,
   (asciiBytes "0123456789ABCDEF").getD (b % 16) 0x3F]

/-- Modelled from the spec: percent-encoding as the spec words it. -/
def specEncodeBytes (p : List Nat) : List Nat :=
  p.flatMap fun b =>
    if specUnreservedByte b then [b] else 0x25 :: specUpperHexDigits b

/-- Claim C9: `percent_encode_path` leaves exactly the ASCII letters,
digits and `-`, `_`, `.`, `~`, `/` unchanged, and replaces every other
byte by `%` plus its two uppercase hexadecimal digits. -/
theorem claim_C9_percent_encoding (p : List Nat) (h : ∀ b ∈ p, b < 256) :
    percent_encode_path p = specEncodeBytes p := by
  have hpt : ∀ b < 256,
      (if is_unreserved_path_byte b then [b]
        else [0x25, hex_upper (b / 16), hex_upper (b % 16)])
      = (if specUnreservedByte b then [b] else 0x25 :: specUpperHexDigits b) := by decide
  induction p with
  | nil => rfl
  | cons b t ih =>
    have hb : b < 256 := h b (List.mem_cons_self b t)
    have iht := ih fun x hx => h x (List.mem_cons_of_mem b hx)
    simp only [percent_encode_path, specEncodeBytes, List.flatMap_cons] at iht ⊢
    rw [iht, hpt b hb]

/-- Claim C9 witness: the encoding of `/a b%` (space and percent escape). -/
theorem claim_C9_witness :
    percent_encode_path (asciiBytes "/a b%") = specEncodeBytes (asciiBytes "/a b%")
    ∧ percent_encode_path (asciiBytes "/a b%") = asciiBytes "/a%20b%25" := by
  refine ⟨claim_C9_percent_encoding (asciiBytes "/a b%") (by decide), by decide⟩

/-! ## Identifier allocation (C1) -/

theorem I64_WRAP_step (x : Int) : I64_WRAP (I64_WRAP x + 1) = I64_WRAP (x + 1) := by
  unfold I64_WRAP
  omega

theorem I64_WRAP_small (x : Int) (h1 : -(2 ^ 63) ≤ x) (h2 : x < 2 ^ 63) :
    I64_WRAP x = x := by
  unfold I64_WRAP
  omega

theorem I32_WRAP_small (x : Int) (h1 : -(2 ^ 31) ≤ x) (h2 : x < 2 ^ 31) :
    I32_WRAP x = x := by
  unfold I32_WRAP
  omega

/-- Closed form of the id counter: the `k`-th allocation returns the
`i64`-wrapped value of `1 + k`. -/
theorem nthNextId_closed (k : Nat) : nthNextId k = I64_WRAP (1 + (k : Int)) := by
  induction k with
  | zero =>
    show (1 : Int) = I64_WRAP 1
    unfold I64_WRAP
    omega
  | succ k ih =>
    show I64_WRAP (nthNextId k + 1) = _
    rw [ih, I64_WRAP_step]
    congr 1

/-- Every branch of `request` advances `next_id` by exactly one
fetch-and-increment. -/
theorem request_allocates (st : LspState) (method : List Nat) (params : Json)
    (ioFails : Bool) (aw : AwaitOutcome) :
    (request st method params ioFails aw).state.nextId = I64_WRAP (st.nextId + 1)
    ∧ (request st method params ioFails aw).written
        = (send_message { st with
            nextId := I64_WRAP (st.nextId + 1)
            pending := insertPending st.nextId st.pending }
            (requestMsg st.nextId method params) ioFails).1 := by
  unfold request
  dsimp only
  split <;> (try split) <;> (try split) <;> exact ⟨rfl, rfl⟩

/-- Claim C1 (amended): for the first `i64::MAX` allocations the returned
identifiers are exactly `1, 2, 3, …`: they start at 1, are strictly
increasing in allocation order, are pairwise distinct and never reused in
that range; and each `request` call performs exactly one such allocation. -/
theorem claim_C1_id_allocation (i j : Nat) (hij : i < j) (hj : j + 2 ≤ 2 ^ 63) :
    nthNextId 0 = 1
    ∧ nthNextId i = 1 + (i : Int)
    ∧ nthNextId j = 1 + (j : Int)
    ∧ nthNextId i < nthNextId j
    ∧ nthNextId i ≠ nthNextId j
    ∧ (∀ st method params ioFails aw,
        (request st method params ioFails aw).state.nextId = I64_WRAP (st.nextId + 1)) := by
  have hi2 : (1 : Int) + (i : Int) < 2 ^ 63 := by omega
  have hj2 : (1 : Int) + (j : Int) < 2 ^ 63 := by omega
  have hvi : nthNextId i = 1 + (i : Int) := by
    rw [nthNextId_closed, I64_WRAP_small _ (by omega) hi2]
  have hvj : nthNextId j = 1 + (j : Int) := by
    rw [nthNextId_closed, I64_WRAP_small _ (by omega) hj2]
  refine ⟨rfl, hvi, hvj, ?_, ?_, ?_⟩
  · rw [hvi, hvj]
    omega
  · rw [hvi, hvj]
    omega
  · intro st method params ioFails aw
    exact (request_allocates st method params ioFails aw).1

/-- Claim C1 witness: the first three allocations return 1, 2, 3. -/
theorem claim_C1_witness :
    nthNextId 0 = 1 ∧ nthNextId 1 = 2 ∧ nthNextId 0 < nthNextId 1
    ∧ nthNextId 0 ≠ nthNextId 1 := by
  have h := claim_C1_id_allocation 0 1 (by decide) (by norm_num)
  exact ⟨h.1, by rw [h.2.2.1]; rfl, h.2.2.2.1, h.2.2.2.2.1⟩

/-- Claim C1 counterexample: at the `2^63`-th allocation the `i64` counter
wraps, so the sequence of returned identifiers is not strictly increasing
(and later repeats): allocation number 9223372036854775805 (0-based)
returns `i64::MAX` and the next one returns `i64::MIN`. -/
theorem claim_C1_counterexample :
    nthNextId 9223372036854775806 = 9223372036854775807
    ∧ nthNextId 9223372036854775807 = -9223372036854775808
    ∧ ¬(nthNextId 9223372036854775806 < nthNextId 9223372036854775807) := by
  have h1 : nthNextId 9223372036854775806 = 9223372036854775807 := by
    rw [nthNextId_closed]
    unfold I64_WRAP
    norm_num
  have h2 : nthNextId 9223372036854775807 = -9223372036854775808 := by
    rw [nthNextId_closed]
    unfold I64_WRAP
    norm_num
  refine ⟨h1, h2, ?_⟩
  rw [h1, h2]
  omega

/-! ## Timeout cleanup (C6) and post-death failure (C7) -/

theorem not_mem_removePending (id : Int) (l : List Int) : id ∉ removePending id l := by
  simp [removePending, List.mem_filter]

/-- Claim C6: on a live session, a request whose response never arrives
within the timeout window removes its own pending entry and returns a
timeout error; a request whose send fails also removes its entry before
returning the send error. -/
theorem claim_C6_timeout_cleanup (st : LspState) (method : List Nat) (params : Json)
    (aw : AwaitOutcome) (halive : st.alive = true) :
    ((request st method params false .timedOut).result = .error .timedOut
      ∧ st.nextId ∉ (request st method params false .timedOut).state.pending)
    ∧ ((request st method params true aw).result = .error .sendIoError
      ∧ st.nextId ∉ (request st method params true aw).state.pending) := by
  constructor
  · unfold request
    dsimp only
    rw [show (send_message { st with
        nextId := I64_WRAP (st.nextId + 1)
        pending := insertPending st.nextId st.pending }
        (requestMsg st.nextId method params) false)
      = (some (frameMessage (render (requestMsg st.nextId method params))), .ok ()) from by
        simp [send_message, halive]]
    exact ⟨rfl, not_mem_removePending _ _⟩
  · unfold request
    dsimp only
    rw [show (send_message { st with
        nextId := I64_WRAP (st.nextId + 1)
        pending := insertPending st.nextId st.pending }
        (requestMsg st.nextId method params) true)
      = (some (frameMessage (render (requestMsg st.nextId method params))),
          .error .sendIoError) from by
        simp [send_message, halive]]
    exact ⟨rfl, not_mem_removePending _ _⟩

/-- Claim C6 witness: a fresh live session, timing out and send-failing. -/
theorem claim_C6_witness :
    ((request ⟨1, [], [], true⟩ (asciiBytes "shutdown") Json.null false .timedOut).result
        = .error .timedOut
      ∧ (1 : Int) ∉ (request ⟨1, [], [], true⟩ (asciiBytes "shutdown") Json.null false
          .timedOut).state.pending)
    ∧ ((request ⟨1, [], [], true⟩ (asciiBytes "shutdown") Json.null true .timedOut).result
        = .error .sendIoError
      ∧ (1 : Int) ∉ (request ⟨1, [], [], true⟩ (asciiBytes "shutdown") Json.null true
          .timedOut).state.pending) :=
  claim_C6_timeout_cleanup ⟨1, [], [], true⟩ (asciiBytes "shutdown") Json.null .timedOut rfl

/-- Claim C7: once the liveness flag is cleared, every request and every
notification returns an error immediately and nothing is written to the
child stdin. -/
theorem claim_C7_post_death (st : LspState) (hdead : st.alive = false)
    (method : List Nat) (params : Json) (ioFails : Bool) (aw : AwaitOutcome) :
    ((request st method params ioFails aw).written = none
      ∧ (request st method params ioFails aw).result = .error .deadSession)
    ∧ ((notify st method params ioFails).written = none
      ∧ (notify st method params ioFails).result = .error .deadSession) := by
  constructor
  · unfold request
    dsimp only
    rw [show (send_message { st with
        nextId := I64_WRAP (st.nextId + 1)
        pending := insertPending st.nextId st.pending }
        (requestMsg st.nextId method params) ioFails)
      = (none, .error .deadSession) from by simp [send_message, hdead]]
    exact ⟨rfl, rfl⟩
  · rw [notify]
    rw [show send_message st (notifyMsg method params) ioFails
      = (none, .error .deadSession) from by simp [send_message, hdead]]
    exact ⟨rfl, rfl⟩

/-- Claim C7 witness: a dead session refuses a request and a notification
without writing. -/
theorem claim_C7_witness :
    ((request ⟨5, [3], [], false⟩ (asciiBytes "shutdown") Json.null false .timedOut).written
        = none
      ∧ (request ⟨5, [3], [], false⟩ (asciiBytes "shutdown") Json.null false
          .timedOut).result = .error .deadSession)
    ∧ ((notify ⟨5, [3], [], false⟩ (asciiBytes "shutdown") Json.null false).written = none
      ∧ (notify ⟨5, [3], [], false⟩ (asciiBytes "shutdown") Json.null false).result
        = .error .deadSession) :=
  claim_C7_post_death ⟨5, [3], [], false⟩ rfl (asciiBytes "shutdown") Json.null false .timedOut

/-! ## Document sync (C2, C10) -/

theorem lookupFile_updateFile (files : List (List Nat × (Int × Nat))) (path : List Nat)
    (e v0 : Int × Nat) (h : lookupFile files path = some v0) :
    lookupFile (updateFile files path e) path = some e := by
  induction files with
  | nil => simp [lookupFile] at h
  | cons kv rest ih =>
    by_cases hk : kv.1 = path
    · simp [lookupFile, updateFile, hk]
    · have h2 : lookupFile rest path = some v0 := by
        simpa [lookupFile, hk] using h
      simp [lookupFile, updateFile, hk] at ih ⊢
      exact ih h2

theorem file_uri_absolute (path : List Nat) (habs : isAbsolutePath path = true) :
    file_uri path = .ok (asciiBytes "file://" ++ percent_encode_path path) := by
  rw [file_uri, if_pos habs]

/-- `ensure_file_open`, fingerprint-unchanged branch: a strict no-op. -/
theorem ensure_file_open_unchanged (hash : List Nat → Nat) (st : LspState)
    (path content : List Nat) (ioFails : Bool) (v : Int)
    (habs : isAbsolutePath path = true)
    (hsome : lookupFile st.openedFiles path = some (v, hash content)) :
    ensure_file_open hash st path content ioFails
      = { state := st, written := none, result := .ok () } := by
  unfold ensure_file_open
  rw [file_uri_absolute path habs]
  dsimp only
  rw [hsome]
  simp

/-- `ensure_file_open`, first-access branch: record inserted at version 0,
then the didOpen notification is sent from the updated state. -/
theorem ensure_file_open_fresh (hash : List Nat → Nat) (st : LspState)
    (path content : List Nat) (ioFails : Bool)
    (habs : isAbsolutePath path = true)
    (hnone : lookupFile st.openedFiles path = none) :
    ensure_file_open hash st path content ioFails
      = { state := { st with openedFiles := (path, (0, hash content)) :: st.openedFiles },
          written := (send_message
            { st with openedFiles := (path, (0, hash content)) :: st.openedFiles }
            (notifyMsg (asciiBytes "textDocument/didOpen")
              (didOpenParams (asciiBytes "file://" ++ percent_encode_path path)
                (detect_language_id path) 0 content)) ioFails).1,
          result := (send_message
            { st with openedFiles := (path, (0, hash content)) :: st.openedFiles }
            (notifyMsg (asciiBytes "textDocument/didOpen")
              (didOpenParams (asciiBytes "file://" ++ percent_encode_path path)
                (detect_language_id path) 0 content)) ioFails).2 } := by
  unfold ensure_file_open
  rw [file_uri_absolute path habs]
  dsimp only
  rw [hnone]

/-- `ensure_file_open`, fingerprint-changed branch: version bumped by one,
hash replaced, then the didChange notification is sent from the updated
state. -/
theorem ensure_file_open_changed (hash : List Nat → Nat) (st : LspState)
    (path content : List Nat) (ioFails : Bool) (v : Int) (ph : Nat)
    (habs : isAbsolutePath path = true)
    (hsome : lookupFile st.openedFiles path = some (v, ph))
    (hne : ph ≠ hash content) :
    ensure_file_open hash st path content ioFails
      = { state := { st with
            openedFiles := updateFile st.openedFiles path (I32_WRAP (v + 1), hash content) },
          written := (send_message
            { st with
              openedFiles := updateFile st.openedFiles path (I32_WRAP (v + 1), hash content) }
            (notifyMsg (asciiBytes "textDocument/didChange")
              (didChangeParams (asciiBytes "file://" ++ percent_encode_path path)
                (I32_WRAP (v + 1)) content)) ioFails).1,
          result := (send_message
            { st with
              openedFiles := updateFile st.openedFiles path (I32_WRAP (v + 1), hash content) }
            (notifyMsg (asciiBytes "textDocument/didChange")
              (didChangeParams (asciiBytes "file://" ++ percent_encode_path path)
                (I32_WRAP (v + 1)) content)) ioFails).2 } := by
  unfold ensure_file_open
  rw [file_uri_absolute path habs]
  dsimp only
  rw [hsome]
  dsimp only
  rw [if_neg hne]

/-- Claim C2 (amended): on a live session with a readable absolute path,
the first sync of a path inserts a version-0 record and writes exactly one
framed didOpen notification with the full text; a sync with an unchanged
fingerprint is a no-op returning success; a sync with a changed
fingerprint updates the stored version with `i32` wrapping arithmetic and
writes exactly one framed didChange notification with the full
replacement text and that new version — and the update is an increment by
exactly 1 whenever the stored version lies in `i32` range below
`i32::MAX` (at `i32::MAX` the counter wraps instead). -/
theorem claim_C2_sync_dedup (hash : List Nat → Nat) (st : LspState)
    (path content : List Nat)
    (habs : isAbsolutePath path = true) (halive : st.alive = true) :
    (lookupFile st.openedFiles path = none →
      (ensure_file_open hash st path content false).state.openedFiles
          = (path, (0, hash content)) :: st.openedFiles
      ∧ (ensure_file_open hash st path content false).written
          = some (frameMessage (render (notifyMsg (asciiBytes "textDocument/didOpen")
              (didOpenParams (asciiBytes "file://" ++ percent_encode_path path)
                (detect_language_id path) 0 content))))
      ∧ (ensure_file_open hash st path content false).result = .ok ())
    ∧ (∀ v, lookupFile st.openedFiles path = some (v, hash content) →
        ensure_file_open hash st path content false
          = { state := st, written := none, result := .ok () })
    ∧ (∀ v ph, lookupFile st.openedFiles path = some (v, ph) → ph ≠ hash content →
        lookupFile (ensure_file_open hash st path content false).state.openedFiles path
            = some (I32_WRAP (v + 1), hash content)
        ∧ (ensure_file_open hash st path content false).written
            = some (frameMessage (render (notifyMsg (asciiBytes "textDocument/didChange")
                (didChangeParams (asciiBytes "file://" ++ percent_encode_path path)
                  (I32_WRAP (v + 1)) content))))
        ∧ (ensure_file_open hash st path content false).result = .ok ())
    ∧ (∀ v : Int, -(2 ^ 31) ≤ v → v < 2 ^ 31 - 1 → I32_WRAP (v + 1) = v + 1) := by
  refine ⟨?_, ?_, ?_, ?_⟩
  · intro hnone
    rw [ensure_file_open_fresh hash st path content false habs hnone]
    refine ⟨rfl, ?_, ?_⟩ <;> simp [send_message, halive]
  · intro v hsome
    exact ensure_file_open_unchanged hash st path content false v habs hsome
  · intro v ph hsome hne
    rw [ensure_file_open_changed hash st path content false v ph habs hsome hne]
    refine ⟨?_, ?_, ?_⟩
    · exact lookupFile_updateFile st.openedFiles path (I32_WRAP (v + 1), hash content)
        (v, ph) hsome
    · simp [send_message, halive]
    · simp [send_message, halive]
  · intro v h1 h2
    exact I32_WRAP_small (v + 1) (by omega) (by omega)

/-- Claim C2 counterexample: the claim as stated fails at the `i32`
boundary: with a stored version of `i32::MAX` (2147483647) and changed
content, the code stores the wrapped version -2147483648, which is not the
stored version incremented by exactly 1. -/
theorem claim_C2_counterexample :
    lookupFile (ensure_file_open List.length
        ⟨1, [], [(asciiBytes "/a.rs", (2147483647, 0))], true⟩ (asciiBytes "/a.rs")
        [0x61] false).state.openedFiles (asciiBytes "/a.rs")
      = some (-2147483648, 1)
    ∧ (-2147483648 : Int) ≠ 2147483647 + 1 := by
  exact ⟨rfl, by decide⟩

/-- Claim C2 witness: first sync of `/a.rs` on a fresh live session, then a
no-op re-sync, then a changed-content sync at version 1. -/
theorem claim_C2_witness :
    ((ensure_file_open List.length ⟨1, [], [], true⟩ (asciiBytes "/a.rs") [0x61]
        false).state.openedFiles = [(asciiBytes "/a.rs", (0, 1))]
      ∧ (ensure_file_open List.length ⟨1, [], [], true⟩ (asciiBytes "/a.rs") [0x61]
          false).result = .ok ())
    ∧ ensure_file_open List.length ⟨1, [], [(asciiBytes "/a.rs", (0, 1))], true⟩
        (asciiBytes "/a.rs") [0x62] false
        = { state := ⟨1, [], [(asciiBytes "/a.rs", (0, 1))], true⟩,
            written := none, result := .ok () }
    ∧ lookupFile (ensure_file_open List.length
        ⟨1, [], [(asciiBytes "/a.rs", (0, 1))], true⟩ (asciiBytes "/a.rs") [0x61, 0x62]
        false).state.openedFiles (asciiBytes "/a.rs") = some (1, 2) := by
  refine ⟨?_, ?_, ?_⟩
  · have h := (claim_C2_sync_dedup List.length ⟨1, [], [], true⟩ (asciiBytes "/a.rs")
      [0x61] (by decide) rfl).1 rfl
    exact ⟨h.1, h.2.2⟩
  · exact (claim_C2_sync_dedup List.length ⟨1, [], [(asciiBytes "/a.rs", (0, 1))], true⟩
      (asciiBytes "/a.rs") [0x62] (by decide) rfl).2.1 0 rfl
  · have h := ((claim_C2_sync_dedup List.length
      ⟨1, [], [(asciiBytes "/a.rs", (0, 1))], true⟩
      (asciiBytes "/a.rs") [0x61, 0x62] (by decide) rfl).2.2.1 0 1 rfl (by decide)).1
    rw [show I32_WRAP (0 + 1) = 1 from by decide] at h
    exact h

/-- Claim C10: the open-files record is updated (version-0 insert, or the
`i32` version update with the new fingerprint) before the notification
send is awaited, and a send failure does not roll it back: after a failed
didOpen/didChange send, a repeated call with the same content finds the
matching fingerprint and returns success without sending anything. This
holds for every stored version, the wrap boundary included. -/
theorem claim_C10_no_rollback (hash : List Nat → Nat) (st : LspState)
    (path content : List Nat)
    (habs : isAbsolutePath path = true) (halive : st.alive = true) :
    (lookupFile st.openedFiles path = none →
      (ensure_file_open hash st path content true).result = .error .sendIoError
      ∧ (ensure_file_open hash st path content true).state.openedFiles
          = (path, (0, hash content)) :: st.openedFiles
      ∧ ensure_file_open hash (ensure_file_open hash st path content true).state
          path content false
        = { state := (ensure_file_open hash st path content true).state,
            written := none, result := .ok () })
    ∧ (∀ v ph, lookupFile st.openedFiles path = some (v, ph) → ph ≠ hash content →
      (ensure_file_open hash st path content true).result = .error .sendIoError
      ∧ lookupFile (ensure_file_open hash st path content true).state.openedFiles path
          = some (I32_WRAP (v + 1), hash content)
      ∧ ensure_file_open hash (ensure_file_open hash st path content true).state
          path content false
        = { state := (ensure_file_open hash st path content true).state,
            written := none, result := .ok () }) := by
  constructor
  · intro hnone
    rw [ensure_file_open_fresh hash st path content true habs hnone]
    refine ⟨by simp [send_message, halive], rfl, ?_⟩
    exact ensure_file_open_unchanged hash _ path content false 0 habs (by simp [lookupFile])
  · intro v ph hsome hne
    rw [ensure_file_open_changed hash st path content true v ph habs hsome hne]
    have hupd := lookupFile_updateFile st.openedFiles path (I32_WRAP (v + 1), hash content)
      (v, ph) hsome
    refine ⟨by simp [send_message, halive], hupd, ?_⟩
    exact ensure_file_open_unchanged hash _ path content false (I32_WRAP (v + 1)) habs hupd

/-- Claim C10 witness: a failed didOpen send still records version 0, and
the repeat call is a successful no-op. -/
theorem claim_C10_witness :
    (ensure_file_open List.length ⟨1, [], [], true⟩ (asciiBytes "/a.rs") [0x61]
        true).result = .error .sendIoError
    ∧ (ensure_file_open List.length ⟨1, [], [], true⟩ (asciiBytes "/a.rs") [0x61]
        true).state.openedFiles = [(asciiBytes "/a.rs", (0, 1))]
    ∧ ensure_file_open List.length
        (ensure_file_open List.length ⟨1, [], [], true⟩ (asciiBytes "/a.rs") [0x61]
          true).state (asciiBytes "/a.rs") [0x61] false
      = { state := (ensure_file_open List.length ⟨1, [], [], true⟩ (asciiBytes "/a.rs")
            [0x61] true).state, written := none, result := .ok () } := by
  have h := (claim_C10_no_rollback List.length ⟨1, [], [], true⟩ (asciiBytes "/a.rs")
    [0x61] (by decide) rfl).1 rfl
  exact ⟨h.1, h.2.1, h.2.2⟩

/-! ## Frame round trip (C3), oversized rejection (C5), dispatch (C8) -/

theorem readHeaders_frame (n : Nat) (rest : List Nat) :
    readHeaders (contentLengthHeader n ++ rest) none = .done (some n) rest := by
  rw [readHeaders]
  rw [show (contentLengthHeader n ++ rest).length + 1
      = ((contentLengthHeader n ++ rest).length - 1) + 2 from by
    have h1 : 1 ≤ (contentLengthHeader n ++ rest).length := by
      rw [contentLengthHeader]
      simp
      omega
    omega]
  exact readHeadersF_frame _ n rest

/-- Claim C3 (amended): for every JSON message whose serialized body does
not exceed the 100 MiB cap, the Reader's framing parser recovers from the
Transport's encoding first the byte-identical body (the declared length is
its exact byte length) and then the same JSON message. -/
theorem claim_C3_frame_round_trip (msg : Json)
    (hsize : (render msg).length ≤ MAX_LSP_MESSAGE_SIZE) :
    readHeaders (frameMessage (render msg)) none
        = .done (some (render msg).length) (render msg)
    ∧ readMessage (frameMessage (render msg)) = .msg msg [] := by
  constructor
  · rw [frameMessage]
    exact readHeaders_frame _ _
  · rw [frameMessage, readMessage_frame, readBody]
    rw [if_neg (by omega)]
    rw [if_neg (by omega)]
    rw [List.take_length, parseJson_render msg]
    simp [Option.elim, List.drop_length]

/-- Claim C3 witness: round trip of the message `7`. -/
theorem claim_C3_witness :
    (render (Json.num 7)).length ≤ MAX_LSP_MESSAGE_SIZE
    ∧ readMessage (frameMessage (render (Json.num 7))) = .msg (Json.num 7) [] :=
  ⟨by decide, (claim_C3_frame_round_trip (Json.num 7) (by decide)).2⟩

/-- A 104857599-byte string: its serialized body is 104857601 bytes, just
over the 100 MiB cap. -/
def bigStrJson : Json := Json.str (List.replicate 104857599 0x61)

theorem flatMap_escape_replicate (n : Nat) :
    (List.replicate n 0x61).flatMap escapeByte = List.replicate n 0x61 := by
  induction n with
  | zero => rfl
  | succ n ih => simp [List.replicate_succ, show escapeByte 0x61 = [0x61] from rfl, ih]

theorem render_str_length (s : List Nat) (h : s.flatMap escapeByte = s) :
    (render (Json.str s)).length = s.length + 2 := by
  rw [show render (Json.str s) = renderString s from by simp [render]]
  rw [renderString, h]
  simp only [List.length_cons, List.length_append, List.length_nil]

theorem bigStr_render_length : (render bigStrJson).length = 104857601 := by
  rw [show (render bigStrJson).length
      = (render (Json.str (List.replicate 104857599 0x61))).length from rfl]
  rw [render_str_length _ (flatMap_escape_replicate 104857599)]
  rw [List.length_replicate]

/-- Claim C3 counterexample: the claim as stated fails for a message whose
body exceeds the cap: `send_message` happily frames a 104857601-byte body,
but the Reader rejects it as oversized instead of recovering the message. -/
theorem claim_C3_counterexample :
    readMessage (frameMessage (render bigStrJson)) = .err .oversized
    ∧ ReadResult.err ReadErr.oversized ≠ ReadResult.msg bigStrJson [] := by
  constructor
  · rw [frameMessage, readMessage_frame, readBody, bigStr_render_length]
    rw [if_pos (by norm_num [MAX_LSP_MESSAGE_SIZE])]
  · simp

/-- Claim C5: a frame whose declared Content-Length exceeds the 100 MiB cap
makes the Reader Loop fail with the oversized error straight after the
headers, for every possible continuation of the stream — no byte of the
body is examined and no body buffer is needed. -/
theorem claim_C5_oversized_rejection (n : Nat) (rest : List Nat)
    (hn : n > MAX_LSP_MESSAGE_SIZE) :
    readHeaders (contentLengthHeader n ++ rest) none = .done (some n) rest
    ∧ readMessage (contentLengthHeader n ++ rest) = .err .oversized := by
  refine ⟨readHeaders_frame n rest, ?_⟩
  rw [readMessage_frame, readBody, if_pos hn]

/-- Claim C5 witness: a declared length of 104857601 with an arbitrary
following byte is rejected. -/
theorem claim_C5_witness :
    104857601 > MAX_LSP_MESSAGE_SIZE
    ∧ readMessage (contentLengthHeader 104857601 ++ [0x7B]) = .err .oversized :=
  ⟨by decide, (claim_C5_oversized_rejection 104857601 [0x7B] (by decide)).2⟩

/-- Claim C8 counterexample: a message whose `id` member is the string
`"1"` carries an identifier field, yet the reader treats it as a
notification (serde's `as_i64` fails on a string), contradicting the claim
that the presence of an identifier field alone decides response-ness. -/
theorem claim_C8_counterexample :
    ((Json.obj [(asciiBytes "id", Json.str (asciiBytes "1"))]).getField
        (asciiBytes "id")).isSome = true
    ∧ (dispatchMessage (Json.obj [(asciiBytes "id", Json.str (asciiBytes "1"))]) []).2
        = .notificationLogged := by
  exact ⟨rfl, rfl⟩

/-- Claim C8 (amended): the Reader treats a message as a response exactly
when it carries an `id` member whose value is an integer representable as
an `i64`; in that case it removes and fulfills the matching pending entry
when one exists and otherwise logs the unmatched response; everything else
is logged and discarded as a notification — never fatal. -/
theorem claim_C8_dispatch (msg : Json) (pending : List Int) :
    ((dispatchMessage msg pending).2 ≠ .notificationLogged
      ↔ ((msg.getField (asciiBytes "id")).bind Json.asI64).isSome = true)
    ∧ (∀ id, (msg.getField (asciiBytes "id")).bind Json.asI64 = some id →
        (id ∈ pending →
          dispatchMessage msg pending = (removePending id pending, .resolved id))
        ∧ (id ∉ pending →
          dispatchMessage msg pending = (pending, .unknownResponse id)))
    ∧ ((msg.getField (asciiBytes "id")).bind Json.asI64 = none →
        dispatchMessage msg pending = (pending, .notificationLogged)) := by
  cases h : (msg.getField (asciiBytes "id")).bind Json.asI64 with
  | none =>
    refine ⟨?_, ?_, ?_⟩
    · simp [dispatchMessage, h]
    · intro id hid
      exact absurd hid (by simp)
    · intro _
      simp [dispatchMessage, h]
  | some id0 =>
    by_cases hmem : id0 ∈ pending
    · refine ⟨?_, ?_, ?_⟩
      · simp [dispatchMessage, h, hmem]
      · intro id hid
        injection hid with hid
        subst hid
        exact ⟨fun _ => by simp [dispatchMessage, h, hmem], fun hc => absurd hmem hc⟩
      · intro hc
        exact absurd hc (by simp)
    · refine ⟨?_, ?_, ?_⟩
      · simp [dispatchMessage, h, hmem]
      · intro id hid
        injection hid with hid
        subst hid
        exact ⟨fun hc => absurd hc hmem, fun _ => by simp [dispatchMessage, h, hmem]⟩
      · intro hc
        exact absurd hc (by simp)

/-- Claim C8 witness: an integer-id response resolves its pending entry;
an unmatched integer id and a no-id message are logged, not fatal. -/
theorem claim_C8_witness :
    dispatchMessage (Json.obj [(asciiBytes "id", Json.num 1)]) [1]
        = ([], .resolved 1)
    ∧ dispatchMessage (Json.obj [(asciiBytes "id", Json.num 2)]) [1]
        = ([1], .unknownResponse 2)
    ∧ dispatchMessage (Json.obj [(asciiBytes "method", Json.str (asciiBytes "m"))]) [1]
        = ([1], .notificationLogged) := by
  refine ⟨?_, ?_, ?_⟩
  · have h := ((claim_C8_dispatch (Json.obj [(asciiBytes "id", Json.num 1)]) [1]).2.1
      1 (by rfl)).1 (by decide)
    rw [h]
    rfl
  · exact ((claim_C8_dispatch (Json.obj [(asciiBytes "id", Json.num 2)]) [1]).2.1
      2 (by rfl)).2 (by decide)
  · exact (claim_C8_dispatch (Json.obj [(asciiBytes "method",
      Json.str (asciiBytes "m"))]) [1]).2.2 (by rfl)

end LspMux
